import Mathlib

/-!
Verification of lotto_importer: record codec, binary serializer/verifier and
line parser.

A shallow embedding of `src/include/lotto_importer/basic_types.h`,
`src/src/utilities.cpp` and `src/src/lotto_importer.cpp`.

Conventions of the embedding.

* `uint64_t`, `uint32_t`, `uint8_t` values are natural numbers; a reduction
  `% 2 ^ w` is written wherever the C++ code narrows a value.
* A `std::string` is the list of its `char`s; the `char` with code `b` is the
  Lean character with code `b`.
* `extraction_t` is the union of the 64-bit `raw` with the bit-field struct
  `bits_t`.  It is represented by its `raw` value.  The bit-fields are allocated
  from the least significant bit upward in declaration order (the x86-64 System V
  layout used by GCC and Clang, the compilers that accept the
  `__attribute__((packed))` of the source), so a field of width `w` at offset
  `off` is read as `raw / 2 ^ off % 2 ^ w`.
* A file on disk is `Option` of its content: `none` is a file that does not
  exist or cannot be opened.
-/

namespace LottoImporter

/-! ## basic_types.h -/

/-- The enumeration `ruota_t` (underlying type `uint64_t`). -/
inductive ruota_t where
  | NAZIONALE | BARI | CAGLIARI | FIRENZE | GENOVA | MILANO | NAPOLI
  | PALERMO | ROMA | TORINO | VENEZIA | TUTTE | UNKNOWN
  deriving DecidableEq, Repr

/-- The integer value of a `ruota_t` enumerator. -/
def ruota_t.val : ruota_t → Nat
  | .NAZIONALE => 0 | .BARI => 1 | .CAGLIARI => 2 | .FIRENZE => 3
  | .GENOVA => 4 | .MILANO => 5 | .NAPOLI => 6 | .PALERMO => 7
  | .ROMA => 8 | .TORINO => 9 | .VENEZIA => 10 | .TUTTE => 11
  | .UNKNOWN => 12

/-- The enumeration `mese_t` (underlying type `uint64_t`). -/
inductive mese_t where
  | NULL_MESE | GEN | FEB | MAR | APR | MAG | GIU | LUG | AGO | SET | OTT
  | NOV | DIC
  deriving DecidableEq, Repr

/-- The integer value of a `mese_t` enumerator. -/
def mese_t.val : mese_t → Nat
  | .NULL_MESE => 0 | .GEN => 1 | .FEB => 2 | .MAR => 3 | .APR => 4
  | .MAG => 5 | .GIU => 6 | .LUG => 7 | .AGO => 8 | .SET => 9 | .OTT => 10
  | .NOV => 11 | .DIC => 12

/-- The nine bit-fields of `bits_t`, as the values read from them. -/
structure bits_t where
  ruota : Nat
  a : Nat
  b : Nat
  c : Nat
  d : Nat
  e : Nat
  day : Nat
  month : Nat
  year : Nat
  deriving DecidableEq, Repr

/-- Reading the bit-field of width `w` at bit offset `off` of a storage unit. -/
def get_field (raw off w : Nat) : Nat :=
  raw / 2 ^ off % 2 ^ w

/-- Assigning `v` to the bit-field of width `w` at bit offset `off`: the value
is narrowed to `w` bits, the bits below and above the field are kept. -/
def set_field (raw off w v : Nat) : Nat :=
  raw % 2 ^ off + (v % 2 ^ w) * 2 ^ off + raw / 2 ^ (off + w) * 2 ^ (off + w)

/-- Reading `ex.bits.ruota` (4 bits at offset 0). -/
def bits_ruota (raw : Nat) : Nat := get_field raw 0 4
/-- Reading `ex.bits.a` (7 bits at offset 4). -/
def bits_a (raw : Nat) : Nat := get_field raw 4 7
/-- Reading `ex.bits.b` (7 bits at offset 11). -/
def bits_b (raw : Nat) : Nat := get_field raw 11 7
/-- Reading `ex.bits.c` (7 bits at offset 18). -/
def bits_c (raw : Nat) : Nat := get_field raw 18 7
/-- Reading `ex.bits.d` (7 bits at offset 25). -/
def bits_d (raw : Nat) : Nat := get_field raw 25 7
/-- Reading `ex.bits.e` (7 bits at offset 32). -/
def bits_e (raw : Nat) : Nat := get_field raw 32 7
/-- Reading `ex.bits.day` (5 bits at offset 39). -/
def bits_day (raw : Nat) : Nat := get_field raw 39 5
/-- Reading `ex.bits.month` (4 bits at offset 44). -/
def bits_month (raw : Nat) : Nat := get_field raw 44 4
/-- Reading `ex.bits.year` (16 bits at offset 48). -/
def bits_year (raw : Nat) : Nat := get_field raw 48 16

/-- Assigning `ex.bits.ruota = v`. -/
def set_ruota (raw v : Nat) : Nat := set_field raw 0 4 v
/-- Assigning `ex.bits.a = v`. -/
def set_a (raw v : Nat) : Nat := set_field raw 4 7 v
/-- Assigning `ex.bits.b = v`. -/
def set_b (raw v : Nat) : Nat := set_field raw 11 7 v
/-- Assigning `ex.bits.c = v`. -/
def set_c (raw v : Nat) : Nat := set_field raw 18 7 v
/-- Assigning `ex.bits.d = v`. -/
def set_d (raw v : Nat) : Nat := set_field raw 25 7 v
/-- Assigning `ex.bits.e = v`. -/
def set_e (raw v : Nat) : Nat := set_field raw 32 7 v
/-- Assigning `ex.bits.day = v`. -/
def set_day (raw v : Nat) : Nat := set_field raw 39 5 v
/-- Assigning `ex.bits.month = v`. -/
def set_month (raw v : Nat) : Nat := set_field raw 44 4 v
/-- Assigning `ex.bits.year = v`. -/
def set_year (raw v : Nat) : Nat := set_field raw 48 16 v

/-- The record built in `process_file` (lines 363-372): a local `extraction_t ex`
is declared without initialiser, so its 64 bits start with some indeterminate
content `ex0 % 2 ^ 64`; the nine fields are then assigned in the order of the
source. -/
def make_extraction (ex0 a_num b_num c_num d_num e_num ruota year month day : Nat) :
    Nat :=
  let ex := ex0 % 2 ^ 64
  let ex := set_a ex a_num
  let ex := set_b ex b_num
  let ex := set_c ex c_num
  let ex := set_d ex d_num
  let ex := set_e ex e_num
  let ex := set_ruota ex ruota
  let ex := set_year ex year
  let ex := set_month ex month
  let ex := set_day ex day
  ex

/-- The record encoding of a field tuple: `make_extraction` applied to the
fields of `d`. -/
def encode (ex0 : Nat) (d : bits_t) : Nat :=
  make_extraction ex0 d.a d.b d.c d.d d.e d.ruota d.year d.month d.day

/-- The field breakdown of a raw value, as `verify_file_db` reads it from
`ex_found.raw = current_ex` (lines 503-514). -/
def decode (raw : Nat) : bits_t :=
  { ruota := bits_ruota raw, a := bits_a raw, b := bits_b raw, c := bits_c raw,
    d := bits_d raw, e := bits_e raw, day := bits_day raw,
    month := bits_month raw, year := bits_year raw }

/-- A valid draw: a concrete location (one of the 11 named ones, values 0..10),
day in 1..31, month in 1..12, year in 0..65535, each number in 0..90. -/
def valid_draw (d : bits_t) : Prop :=
  d.ruota ≤ 10 ∧ 1 ≤ d.day ∧ d.day ≤ 31 ∧ 1 ≤ d.month ∧ d.month ≤ 12 ∧
  d.year ≤ 65535 ∧ d.a ≤ 90 ∧ d.b ≤ 90 ∧ d.c ≤ 90 ∧ d.d ≤ 90 ∧ d.e ≤ 90

instance (d : bits_t) : Decidable (valid_draw d) := by
  unfold valid_draw; infer_instance

/-! ## save_file_db / verify_file_db -/

/-- The buffer `value_64bit` filled by `save_file_db` for one record
(lines 426-433): the eight bytes of `raw`, most significant first. -/
def value_64bit (raw : Nat) : List Nat :=
  [ (raw >>> 56) &&& 0xFF, (raw >>> 48) &&& 0xFF, (raw >>> 40) &&& 0xFF,
    (raw >>> 32) &&& 0xFF, (raw >>> 24) &&& 0xFF, (raw >>> 16) &&& 0xFF,
    (raw >>> 8) &&& 0xFF, (raw >>> 0) &&& 0xFF ]

/-- The bytes written by the loop of `save_file_db`: one `fwrite` of the
8-byte buffer per element, in vector order. -/
def save_loop : List Nat → List Nat
  | [] => []
  | e :: rest => value_64bit e ++ save_loop rest

/-- Function `save_file_db`: `opened` tells whether `fopen(file_db, "wb")`
succeeded.  Returns the result code and the content of the written file. -/
def save_file_db (extraction_vec : List Nat) (opened : Bool) : Int × List Nat :=
  if opened then (0, save_loop extraction_vec) else (-1, [])

/-- The value `current_ex` rebuilt by `verify_file_db` from the 8 bytes read
(lines 479-486); each byte sits in a `uint8_t`, the result in a `uint64_t`. -/
def current_ex (b0 b1 b2 b3 b4 b5 b6 b7 : Nat) : Nat :=
  ((((b0 % 256) <<< 56) ||| ((b1 % 256) <<< 48) ||| ((b2 % 256) <<< 40) |||
    ((b3 % 256) <<< 32) ||| ((b4 % 256) <<< 24) ||| ((b5 % 256) <<< 16) |||
    ((b6 % 256) <<< 8) ||| ((b7 % 256) <<< 0))) % 2 ^ 64

/-- What a run of `verify_file_db` ends with. -/
inductive verify_result where
  /-- Every record was read back equal: return 0. -/
  | ok
  /-- The file does not exist, is not regular, or cannot be opened: return -1. -/
  | no_file
  /-- A read returned fewer than 8 bytes ("inconsistent read"): return -1. -/
  | inconsistent_read
  /-- The record number `kounter` (1-based) differs: the expected raw value
  and the one found, whose field breakdowns are printed; return -1. -/
  | inconsistent_extraction (kounter expected found : Nat)
  deriving DecidableEq, Repr

/-- The loop of `verify_file_db` over the vector; `kounter` is
`current_ex_kounter` before the increment, `file` the bytes not yet read. -/
def verify_loop : List Nat → Nat → List Nat → verify_result
  | [], _, _ => .ok
  | e :: rest, kounter, file =>
    match file with
    | b0 :: b1 :: b2 :: b3 :: b4 :: b5 :: b6 :: b7 :: file1 =>
      if current_ex b0 b1 b2 b3 b4 b5 b6 b7 ≠ e then
        .inconsistent_extraction (kounter + 1) e (current_ex b0 b1 b2 b3 b4 b5 b6 b7)
      else verify_loop rest (kounter + 1) file1
    | _ => .inconsistent_read

/-- A run of `verify_file_db` on the file content `file_db`. -/
def verify_file_db_run (extraction_vec : List Nat) (file_db : Option (List Nat)) :
    verify_result :=
  match file_db with
  | none => .no_file
  | some file => verify_loop extraction_vec 0 file

/-- Function `verify_file_db`: its `int32_t` result. -/
def verify_file_db (extraction_vec : List Nat) (file_db : Option (List Nat)) : Int :=
  match verify_file_db_run extraction_vec file_db with
  | .ok => 0
  | _ => -1

/-! ## utilities.cpp -/

/-- Function `convert_ruota_to_string`. -/
def convert_ruota_to_string (ruota : ruota_t) : List Char :=
  match ruota with
  | .NAZIONALE => "NAZIONALE".toList
  | .BARI => "BARI".toList
  | .CAGLIARI => "CAGLIARI".toList
  | .FIRENZE => "FIRENZE".toList
  | .GENOVA => "GENOVA".toList
  | .MILANO => "MILANO".toList
  | .NAPOLI => "NAPOLI".toList
  | .PALERMO => "PALERMO".toList
  | .ROMA => "ROMA".toList
  | .TORINO => "TORINO".toList
  | .VENEZIA => "VENEZIA".toList
  | .TUTTE => "TUTTE".toList
  | .UNKNOWN => "UNKNOWN".toList

/-- C library `toupper` in the "C" locale (the program never sets another):
`a`..`z` go to `A`..`Z`, every other char is unchanged. -/
def toupper (c : Char) : Char :=
  if 97 ≤ c.toNat ∧ c.toNat ≤ 122 then Char.ofNat (c.toNat - 32) else c

/-- Function `my_str_toupper`. -/
def my_str_toupper (s : List Char) : List Char :=
  s.map toupper

/-- Function `convert_string_to_ruota`. -/
def convert_string_to_ruota (ruota_name : List Char) : ruota_t :=
  let upper_name := my_str_toupper ruota_name
  if "NAZIONALE".toList = upper_name then .NAZIONALE
  else if "BARI".toList = upper_name then .BARI
  else if "CAGLIARI".toList = upper_name then .CAGLIARI
  else if "FIRENZE".toList = upper_name then .FIRENZE
  else if "GENOVA".toList = upper_name then .GENOVA
  else if "MILANO".toList = upper_name then .MILANO
  else if "NAPOLI".toList = upper_name then .NAPOLI
  else if "PALERMO".toList = upper_name then .PALERMO
  else if "ROMA".toList = upper_name then .ROMA
  else if "TORINO".toList = upper_name then .TORINO
  else if "VENEZIA".toList = upper_name then .VENEZIA
  else if "TUTTE".toList = upper_name then .TUTTE
  else .UNKNOWN

/-- Function `convert_mese_to_string`. -/
def convert_mese_to_string (mese : mese_t) : List Char :=
  match mese with
  | .GEN => "GEN".toList
  | .FEB => "FEB".toList
  | .MAR => "MAR".toList
  | .APR => "APR".toList
  | .MAG => "MAG".toList
  | .GIU => "GIU".toList
  | .LUG => "LUG".toList
  | .AGO => "AGO".toList
  | .SET => "SET".toList
  | .OTT => "OTT".toList
  | .NOV => "NOV".toList
  | .DIC => "DIC".toList
  | .NULL_MESE => "UNKNOWN".toList

/-- Function `convert_string_to_mese`. -/
def convert_string_to_mese (mese_name : List Char) : mese_t :=
  let upper_name := my_str_toupper mese_name
  if "GEN".toList = upper_name then .GEN
  else if "FEB".toList = upper_name then .FEB
  else if "MAR".toList = upper_name then .MAR
  else if "APR".toList = upper_name then .APR
  else if "MAG".toList = upper_name then .MAG
  else if "GIU".toList = upper_name then .GIU
  else if "LUG".toList = upper_name then .LUG
  else if "AGO".toList = upper_name then .AGO
  else if "SET".toList = upper_name then .SET
  else if "OTT".toList = upper_name then .OTT
  else if "NOV".toList = upper_name then .NOV
  else if "DIC".toList = upper_name then .DIC
  else .NULL_MESE

/-! ## C library and boost pieces used by lotto_importer.cpp -/

/-- C library `isspace` in the "C" locale: space, `\t`, `\n`, `\v`, `\f`, `\r`. -/
def isspace (c : Char) : Bool :=
  c.toNat = 32 || (9 ≤ c.toNat && c.toNat ≤ 13)

/-- C library `isdigit`. -/
def isdigit (c : Char) : Bool :=
  48 ≤ c.toNat && c.toNat ≤ 57

/-- The largest `unsigned long` (64 bits wide on the LP64 targets of the program). -/
def ULONG_MAX : Nat := 2 ^ 64 - 1

/-- The sign character that `strtoul` accepts and skips, if there is one. -/
def skip_sign (s : List Char) : List Char :=
  match s with
  | c :: rest => if c = '-' ∨ c = '+' then rest else s
  | [] => s

/-- C library `strtoul(nptr, &end, 10)`: skips leading white space, accepts one
optional sign, then reads the longest run of decimal digits.  Returns the
converted value and whether a conversion was performed (`end != nptr`).  With
no digit there is no conversion and the value is 0; a value above `ULONG_MAX`
gives `ULONG_MAX`; after a minus sign the value is negated in the unsigned
type. -/
def strtoul (nptr : List Char) : Nat × Bool :=
  let s := nptr.dropWhile isspace
  let negative := s.head? = some '-'
  let digits := (skip_sign s).takeWhile isdigit
  if digits = [] then (0, false)
  else
    let v := digits.foldl (fun acc c => 10 * acc + (c.toNat - 48)) 0
    if v > ULONG_MAX then (ULONG_MAX, true)
    else if negative then ((2 ^ 64 - v) % 2 ^ 64, true)
    else (v, true)

/-- The C string `t.c_str()` viewed as a `std::string` again
(`std::string(t.c_str())`): the chars before the first NUL. -/
def c_str (t : List Char) : List Char :=
  t.takeWhile (fun c => c.toNat ≠ 0)

/-- The tokens of `boost::tokenizer<boost::char_separator<char>>` with the
separator `" "`: the maximal runs of chars other than the space (empty tokens
are dropped, the separator is not kept). -/
def tokenizer (s : List Char) : List (List Char) :=
  (s.splitOn ' ').filter (fun t => t ≠ [])

/-- The lines that successive `std::getline` calls extract from a stream with
content `s`: the first line and the following ones.  A line ends at `\n` (not
stored) or at the end of the stream; reaching the end of the stream sets
`eofbit`, so the piece after the last `\n`, empty or not, is the last line read
before `infile.eof()` holds. -/
def getlines : List Char → List Char × List (List Char)
  | [] => ([], [])
  | c :: cs =>
    if c = '\n' then ([], (getlines cs).1 :: (getlines cs).2)
    else (c :: (getlines cs).1, (getlines cs).2)

/-! ## lotto_importer.cpp: the line parser -/

/-- Function `convert_number_non_zero`. -/
def convert_number_non_zero (number_str : List Char) : Nat :=
  if number_str.length ≠ 2 then 0
  else
    let number_str := if number_str.head? = some '0' then number_str.tail else number_str
    let number_conv := (strtoul number_str).1
    if (strtoul number_str).2 = false ∨ 0 = number_conv then 0
    else number_conv

/-- The year check applied to a header token (lines 213-227 and 239-253):
`uint32_t current_year = std::strtoul(t.c_str(), &end, 10)`; the token passes
when a conversion was performed and `current_year == year`. -/
def year_token_ok (year : Nat) (t : List Char) : Bool :=
  let current_year := (strtoul (c_str t)).1 % 2 ^ 32
  if (strtoul (c_str t)).2 = false then false
  else if current_year ≠ year then false
  else true

/-- The header loop of `process_file` (lines 207-256) over the header tokens;
`none` is the `return -1`, `some current_ruote` the list built when the loop
runs to its end. -/
def header_loop (year : Nat) :
    List (List Char) → Bool → List ruota_t → Option (List ruota_t)
  | [], _, current_ruote => some current_ruote
  | t :: rest, is_first, current_ruote =>
    if is_first then
      if year_token_ok year t then header_loop year rest false current_ruote
      else none
    else
      let ruota := convert_string_to_ruota (c_str t)
      if ruota ≠ ruota_t.UNKNOWN then
        header_loop year rest false (current_ruote ++ [ruota])
      else if year_token_ok year t then header_loop year rest false current_ruote
      else none

/-- The header phase of `process_file`: the active-location list of the
header line, or `none` when the header is rejected. -/
def parse_header (year : Nat) (header : List Char) : Option (List ruota_t) :=
  header_loop year (tokenizer header) true []

/-- The local variables of the record loop body of `process_file`
(lines 268-274) together with the vector being filled; `current_r_iter` is the
position of the iterator in `current_ruote`. -/
structure record_state where
  extraction_vec : List Nat
  is_first_record : Bool
  is_second_record : Bool
  current_day : Nat
  current_month : mese_t
  current_r_iter : Nat
  a_num : Nat
  b_num : Nat
  c_num : Nat
  d_num : Nat
  e_num : Nat
  current_number_iter : Nat

/-- The state at the start of a record line. -/
def record_init (extraction_vec : List Nat) : record_state :=
  { extraction_vec := extraction_vec, is_first_record := true, is_second_record := false,
    current_day := 0, current_month := mese_t.NULL_MESE, current_r_iter := 0,
    a_num := 0, b_num := 0, c_num := 0, d_num := 0, e_num := 0,
    current_number_iter := 1 }

/-- How one pass through the body of the token loop (lines 293-382) ends. -/
inductive token_step where
  /-- The loop goes on with the next token. -/
  | next (s : record_state)
  /-- First token `END`: `do_exit = true; break`. -/
  | break_exit (s : record_state)
  /-- The location iterator reached `current_ruote.end()`: `break`. -/
  | break_end (s : record_state)
  /-- An invalid day, month or number: `return -1`. -/
  | return_error (extraction_vec : List Nat)
  /-- Dereference of `current_ruote.end()`: undefined behaviour. -/
  | undefined

/-- The `switch (current_number_iter)` of lines 339-356. -/
def store_number (s : record_state) (c_number : Nat) : record_state :=
  match s.current_number_iter with
  | 1 => { s with a_num := c_number }
  | 2 => { s with b_num := c_number }
  | 3 => { s with c_num := c_number }
  | 4 => { s with d_num := c_number }
  | 5 => { s with e_num := c_number }
  | _ => s

/-- Lines 357-381: the counter is incremented and, after the fifth number of a
group, the record is appended when `a_num != 0` and the location iterator
advances.  `ex0 k` is the indeterminate content of the local `ex` when the
vector holds `k` records. -/
def finish_number (year : Nat) (current_ruote : List ruota_t) (ex0 : Nat → Nat)
    (s : record_state) : token_step :=
  let s := { s with current_number_iter := s.current_number_iter + 1 }
  if s.current_number_iter > 5 then
    if s.a_num ≠ 0 then
      match current_ruote[s.current_r_iter]? with
      | none => token_step.undefined
      | some ruota =>
        let ex := make_extraction (ex0 s.extraction_vec.length) s.a_num s.b_num s.c_num
          s.d_num s.e_num ruota.val year s.current_month.val s.current_day
        let s := { s with extraction_vec := s.extraction_vec ++ [ex],
                          current_number_iter := 1,
                          current_r_iter := s.current_r_iter + 1 }
        if s.current_r_iter = current_ruote.length then token_step.break_end s
        else token_step.next s
    else
      let s := { s with current_number_iter := 1,
                        current_r_iter := s.current_r_iter + 1 }
      if s.current_r_iter = current_ruote.length then token_step.break_end s
      else token_step.next s
  else token_step.next s

/-- One pass through the body of the token loop of `process_file`
(lines 295-381) for the token `t`. -/
def record_token (year : Nat) (current_ruote : List ruota_t) (ex0 : Nat → Nat)
    (s : record_state) (t : List Char) : token_step :=
  if s.is_first_record then
    if "END".toList = c_str t then token_step.break_exit s
    else
      let current_day := convert_number_non_zero (c_str t)
      if 0 = current_day ∨ (current_day < 1 ∨ current_day > 31) then
        token_step.return_error s.extraction_vec
      else
        token_step.next { s with current_day := current_day, is_first_record := false,
                                 is_second_record := true }
  else if s.is_second_record then
    let current_month := convert_string_to_mese (c_str t)
    if mese_t.NULL_MESE = current_month then token_step.return_error s.extraction_vec
    else token_step.next { s with current_month := current_month,
                                  is_second_record := false }
  else
    if "--".toList ≠ c_str t then
      let c_number := convert_number_non_zero (c_str t)
      if 0 = c_number ∨ (c_number < 1 ∨ c_number > 90) then
        token_step.return_error s.extraction_vec
      else finish_number year current_ruote ex0 (store_number s c_number)
    else finish_number year current_ruote ex0 (store_number s 0)

/-- The token loop of `process_file` (line 293) over the tokens of a record. -/
def record_tokens (year : Nat) (current_ruote : List ruota_t) (ex0 : Nat → Nat) :
    List (List Char) → record_state → token_step
  | [], s => token_step.next s
  | t :: rest, s =>
    match record_token year current_ruote ex0 s t with
    | token_step.next s1 => record_tokens year current_ruote ex0 rest s1
    | other => other

/-- How the body of the `while` loop over the record lines ends. -/
inductive record_step where
  /-- The loop goes on with the next line. -/
  | next_line (extraction_vec : List Nat)
  /-- A `break` of the `while` loop: `process_file` returns 0. -/
  | stop (extraction_vec : List Nat)
  /-- The statement `return -1`. -/
  | error (extraction_vec : List Nat)
  /-- Undefined behaviour. -/
  | undefined
  deriving DecidableEq

/-- The body of the `while` loop of `process_file` (lines 263-384) for one
record line. -/
def process_record (year : Nat) (current_ruote : List ruota_t) (ex0 : Nat → Nat)
    (extraction_vec : List Nat) (record : List Char) : record_step :=
  let tok_record := tokenizer record
  let tok_size := tok_record.length
  if tok_size = 1 ∧ tok_record.head? = some "END".toList then
    record_step.stop extraction_vec
  else if tok_size ≠ 2 + 5 * current_ruote.length + 1 then
    record_step.stop extraction_vec
  else
    match record_tokens year current_ruote ex0 tok_record (record_init extraction_vec) with
    | token_step.next s => record_step.next_line s.extraction_vec
    | token_step.break_end s => record_step.next_line s.extraction_vec
    | token_step.break_exit s => record_step.stop s.extraction_vec
    | token_step.return_error v => record_step.error v
    | token_step.undefined => record_step.undefined

/-- The `while (!infile.eof())` loop of `process_file` over the lines that
follow the header; the result code and the vector, `none` for undefined
behaviour. -/
def records_loop (year : Nat) (current_ruote : List ruota_t) (ex0 : Nat → Nat) :
    List (List Char) → List Nat → Option (Int × List Nat)
  | [], extraction_vec => some (0, extraction_vec)
  | record :: rest, extraction_vec =>
    match process_record year current_ruote ex0 extraction_vec record with
    | record_step.next_line v => records_loop year current_ruote ex0 rest v
    | record_step.stop v => some (0, v)
    | record_step.error v => some (-1, v)
    | record_step.undefined => none

/-- Function `process_file`.  `infile` is the content of the file `YYYY.txt` of
the year (`none`: not found or not opened).  The result is the `int32_t` code
and the vector `extraction_vec` after the call, or `none` for undefined
behaviour. -/
def process_file (extraction_vec : List Nat) (year : Nat) (infile : Option (List Char))
    (ex0 : Nat → Nat) : Option (Int × List Nat) :=
  match infile with
  | none => some (-1, extraction_vec)
  | some text =>
    match parse_header year (getlines text).1 with
    | none => some (-1, extraction_vec)
    | some current_ruote =>
      records_loop year current_ruote ex0 (getlines text).2 extraction_vec

/-! ## Vocabulary of the statements -/

/-- The 64-bit value whose nine bit-fields hold the given values. -/
def pack (r a b c d e dd m y : Nat) : Nat :=
  r + 2 ^ 4 * a + 2 ^ 11 * b + 2 ^ 18 * c + 2 ^ 25 * d + 2 ^ 32 * e + 2 ^ 39 * dd +
    2 ^ 44 * m + 2 ^ 48 * y

/-- The value `current_year` that the header loop reads from a token, when a
conversion takes place (`end != t.c_str()`). -/
def current_year (t : List Char) : Option Nat :=
  if (strtoul (c_str t)).2 = true then some ((strtoul (c_str t)).1 % 2 ^ 32) else none

/-- A day token is valid: the Field Parser reads a value in 1..31 from it. -/
def day_token_valid (t : List Char) : Prop :=
  1 ≤ convert_number_non_zero (c_str t) ∧ convert_number_non_zero (c_str t) ≤ 31

/-- A month token is a month name. -/
def month_token_valid (t : List Char) : Prop :=
  convert_string_to_mese (c_str t) ≠ mese_t.NULL_MESE

/-- A number token is a valid number: the Field Parser reads a value in 1..90. -/
def number_token_valid (t : List Char) : Prop :=
  1 ≤ convert_number_non_zero (c_str t) ∧ convert_number_non_zero (c_str t) ≤ 90

/-- A number token that is the placeholder `--` or a valid number. -/
def number_token_ok (t : List Char) : Prop :=
  t = "--".toList ∨ number_token_valid t

instance (t : List Char) : Decidable (day_token_valid t) := by
  unfold day_token_valid; infer_instance

instance (t : List Char) : Decidable (month_token_valid t) := by
  unfold month_token_valid; infer_instance

instance (t : List Char) : Decidable (number_token_valid t) := by
  unfold number_token_valid; infer_instance

instance (t : List Char) : Decidable (number_token_ok t) := by
  unfold number_token_ok; infer_instance

/-- The value stored for a number token: 0 for `--`, else the parsed number. -/
def number_value (t : List Char) : Nat :=
  if t = "--".toList then 0 else convert_number_non_zero (c_str t)

/-- Five consecutive number tokens of a record line. -/
structure number_group where
  t1 : List Char
  t2 : List Char
  t3 : List Char
  t4 : List Char
  t5 : List Char

/-- The tokens that follow the month, cut into groups of five; what is left
after the last complete group (the trailing token) is dropped. -/
def chunk5 : List (List Char) → List number_group
  | t1 :: t2 :: t3 :: t4 :: t5 :: rest => ⟨t1, t2, t3, t4, t5⟩ :: chunk5 rest
  | _ => []

/-- The draw of one group at one location: none when the first token of the
group is `--`, else the location, the date and the five values. -/
def group_draw (year : Nat) (day month : List Char) (g : number_group)
    (ruota : ruota_t) : Option bits_t :=
  if g.t1 = "--".toList then none
  else some
    { ruota := ruota.val, a := number_value g.t1, b := number_value g.t2,
      c := number_value g.t3, d := number_value g.t4, e := number_value g.t5,
      day := convert_number_non_zero (c_str day),
      month := (convert_string_to_mese (c_str month)).val, year := year }

/-- The draws of a record line, in group order: group `j` goes with the
location `current_ruote[j]`. -/
def line_draws (year : Nat) (current_ruote : List ruota_t) (tokens : List (List Char)) :
    List bits_t :=
  match tokens with
  | day :: month :: rest =>
    ((chunk5 rest).zip current_ruote).filterMap
      (fun p => group_draw year day month p.1 p.2)
  | _ => []

/-- The number tokens that the token loop examines on a line with the right
token count: the `5 * n` tokens of the groups, and for an empty location list
the one token after the month. -/
def examined_numbers (current_ruote : List ruota_t) (rest : List (List Char)) :
    List (List Char) :=
  rest.take (max (5 * current_ruote.length) 1)

/-- A well-formed record line: `2 + 5 * n + 1` tokens, a valid day, a month
name, and every number token examined is `--` or a valid number. -/
def record_well_formed (current_ruote : List ruota_t) (record : List Char) : Prop :=
  match tokenizer record with
  | day :: month :: rest =>
    rest.length = 5 * current_ruote.length + 1 ∧ day_token_valid day ∧
      month_token_valid month ∧
      ∀ t ∈ examined_numbers current_ruote rest, number_token_ok t
  | _ => False

instance (current_ruote : List ruota_t) (record : List Char) :
    Decidable (record_well_formed current_ruote record) := by
  unfold record_well_formed; split <;> infer_instance

/-- The ranges of a stored draw of the year `y`: day in 1..31, month in 1..12,
first number in 1..90, the other numbers in 0..90, year field `y`. -/
def draw_in_range (y : Nat) (d : bits_t) : Prop :=
  1 ≤ d.day ∧ d.day ≤ 31 ∧ 1 ≤ d.month ∧ d.month ≤ 12 ∧ 1 ≤ d.a ∧ d.a ≤ 90 ∧
  d.b ≤ 90 ∧ d.c ≤ 90 ∧ d.d ≤ 90 ∧ d.e ≤ 90 ∧ d.year = y

/-- The vector `v` is `vec0` followed by records whose fields are in the ranges
of a stored draw of the year `y`. -/
def appended_in_range (y : Nat) (vec0 v : List Nat) : Prop :=
  ∃ new, v = vec0 ++ new ∧ ∀ r ∈ new, draw_in_range y (decode r)

/-- Position of the token loop inside a line: 2 before the day token, 1 before
the month token, 0 at the number tokens. -/
def phase (s : record_state) : Nat :=
  if s.is_first_record then 2 else if s.is_second_record then 1 else 0

/-- The invariant of the token loop on a line of `2 + 5 * n + 1` tokens, with
`rem` tokens still to read: the values held are in range and enough locations
remain for the groups that the remaining tokens can complete. -/
structure token_inv (y n : Nat) (vec0 : List Nat) (s : record_state) (rem : Nat) :
    Prop where
  vec : appended_in_range y vec0 s.extraction_vec
  a_le : s.a_num ≤ 90
  b_le : s.b_num ≤ 90
  c_le : s.c_num ≤ 90
  d_le : s.d_num ≤ 90
  e_le : s.e_num ≤ 90
  day_ok : s.is_first_record = false → 1 ≤ s.current_day ∧ s.current_day ≤ 31
  month_ok : s.is_first_record = false → s.is_second_record = false →
    s.current_month ≠ mese_t.NULL_MESE
  iter_pos : 1 ≤ s.current_number_iter
  iter_le : s.current_number_iter ≤ 5
  count : rem + (s.current_number_iter - 1) + 5 * s.current_r_iter ≤ 5 * n + 1 + phase s

/-- What the invariant gives when the token loop has ended or goes on. -/
def token_step_ok (y n : Nat) (vec0 : List Nat) (rem : Nat) : token_step → Prop
  | token_step.next s => token_inv y n vec0 s rem
  | token_step.break_exit s => appended_in_range y vec0 s.extraction_vec
  | token_step.break_end s => appended_in_range y vec0 s.extraction_vec
  | token_step.return_error v => appended_in_range y vec0 v
  | token_step.undefined => False

/-- The vector of a finished loop body is the old one followed by records in
range, and the behaviour is defined. -/
def record_step_ok (y : Nat) (vec0 : List Nat) : record_step → Prop
  | record_step.next_line v => appended_in_range y vec0 v
  | record_step.stop v => appended_in_range y vec0 v
  | record_step.error v => appended_in_range y vec0 v
  | record_step.undefined => False

/-- The vector `v` is `vec0` followed by records whose location field holds the
value of a location of the active-location list. -/
def appended_located (current_ruote : List ruota_t) (vec0 v : List Nat) : Prop :=
  ∃ new, v = vec0 ++ new ∧
    ∀ r ∈ new, ∃ ruota ∈ current_ruote, bits_ruota r = ruota.val

/-- The control invariant of the token loop on a line of `2 + 5 * n + 1` tokens,
with `rem` tokens still to read: the counters account for every token read so
far and the location iterator has not reached the end of a non-empty list. -/
structure loop_inv (current_ruote : List ruota_t) (vec0 : List Nat) (s : record_state)
    (rem : Nat) : Prop where
  vec : appended_located current_ruote vec0 s.extraction_vec
  iter_pos : 1 ≤ s.current_number_iter
  iter_le : s.current_number_iter ≤ 5
  idx_lt : current_ruote.length ≠ 0 → s.current_r_iter < current_ruote.length
  count : rem + (s.current_number_iter - 1) + 5 * s.current_r_iter =
    5 * current_ruote.length + 1 + phase s

/-- What the control invariant gives for one pass through the loop body. -/
def token_step_inv (current_ruote : List ruota_t) (vec0 : List Nat) (rem : Nat) :
    token_step → Prop
  | token_step.next s => loop_inv current_ruote vec0 s rem
  | token_step.break_exit s => appended_located current_ruote vec0 s.extraction_vec
  | token_step.break_end s => appended_located current_ruote vec0 s.extraction_vec
  | token_step.return_error v => appended_located current_ruote vec0 v
  | token_step.undefined => False

/-- The vector of a finished `while` body is the old one followed by located
records, and the behaviour is defined. -/
def record_step_located (current_ruote : List ruota_t) (vec0 : List Nat) :
    record_step → Prop
  | record_step.next_line v => appended_located current_ruote vec0 v
  | record_step.stop v => appended_located current_ruote vec0 v
  | record_step.error v => appended_located current_ruote vec0 v
  | record_step.undefined => False

/-- The nine bit-fields of `bits_t`, by name. -/
inductive bit_field where
  | ruota | a | b | c | d | e | day | month | year
  deriving DecidableEq, Repr

/-- The bit offset of a field in the 64-bit record. -/
def bit_field.offset : bit_field → Nat
  | .ruota => 0 | .a => 4 | .b => 11 | .c => 18 | .d => 25 | .e => 32
  | .day => 39 | .month => 44 | .year => 48

/-- The width of a field in bits. -/
def bit_field.width : bit_field → Nat
  | .ruota => 4 | .a => 7 | .b => 7 | .c => 7 | .d => 7 | .e => 7
  | .day => 5 | .month => 4 | .year => 16

/-- The draw `d` with the value of one field replaced. -/
def bits_t.set (d : bits_t) (f : bit_field) (v : Nat) : bits_t :=
  match f with
  | .ruota => { d with ruota := v }
  | .a => { d with a := v }
  | .b => { d with b := v }
  | .c => { d with c := v }
  | .d => { d with d := v }
  | .e => { d with e := v }
  | .day => { d with day := v }
  | .month => { d with month := v }
  | .year => { d with year := v }

/-- Two chars are equal up to case: the same char, or the same ASCII letter in
the two cases. -/
def eq_ignore_case (c1 c2 : Char) : Prop :=
  c1 = c2 ∨ (65 ≤ c1.toNat ∧ c1.toNat ≤ 90 ∧ c2.toNat = c1.toNat + 32) ∨
    (65 ≤ c2.toNat ∧ c2.toNat ≤ 90 ∧ c1.toNat = c2.toNat + 32)

instance (c1 c2 : Char) : Decidable (eq_ignore_case c1 c2) := by
  unfold eq_ignore_case; infer_instance

/-- The string `s` equals `t` up to the case of its ASCII letters. -/
def case_variant (s t : List Char) : Prop :=
  s.length = t.length ∧ ∀ p ∈ s.zip t, eq_ignore_case p.1 p.2

instance (s t : List Char) : Decidable (case_variant s t) := by
  unfold case_variant; infer_instance

/-- A header token recognised as a location name. -/
def recognised_location (t : List Char) : Prop :=
  convert_string_to_ruota (c_str t) ≠ ruota_t.UNKNOWN

instance (t : List Char) : Decidable (recognised_location t) := by
  unfold recognised_location; infer_instance

/-- The locations named by the header tokens after the first, in header order. -/
def header_locations (rest : List (List Char)) : List ruota_t :=
  (rest.filter (fun t => decide (recognised_location t))).map
    (fun t => convert_string_to_ruota (c_str t))

/-- The header condition: the first token reads as the year `y` in `current_year`
and every other token is a recognised location name or reads as `y` again. -/
def header_accepted (y : Nat) (t : List Char) (rest : List (List Char)) : Prop :=
  current_year t = some y ∧
    ∀ t1 ∈ rest, recognised_location t1 ∨ current_year t1 = some y

instance (y : Nat) (t : List Char) (rest : List (List Char)) :
    Decidable (header_accepted y t rest) := by
  unfold header_accepted; infer_instance

/-- Whether the pass through the loop body for the token `t` from the state `s`
reaches the block of lines 358-381 with `current_number_iter > 5`: the token is
read as a number (day and month are done), it is `--` or passes the range check
of line 332, and it is the fifth number of its group. -/
def completes_group (s : record_state) (t : List Char) : Bool :=
  s.is_first_record = false ∧ s.is_second_record = false ∧
    ("--".toList = c_str t ∨
      ¬ (0 = convert_number_non_zero (c_str t) ∨
        (convert_number_non_zero (c_str t) < 1 ∨ convert_number_non_zero (c_str t) > 90))) ∧
    s.current_number_iter + 1 > 5

/-- The positions of the location iterator `current_r_iter` at the group
completions of the token loop, in the order of the run. -/
def completion_indices (year : Nat) (current_ruote : List ruota_t) (ex0 : Nat → Nat) :
    List (List Char) → record_state → List Nat
  | [], _ => []
  | t :: rest, s =>
    (if completes_group s t = true then [s.current_r_iter] else []) ++
      match record_token year current_ruote ex0 s t with
      | token_step.next s1 => completion_indices year current_ruote ex0 rest s1
      | _ => []

/-! ## Codec lemmas -/

theorem unpack (x : Nat) :
    x % 2 ^ 64 = pack (x % 16) (x / 2 ^ 4 % 128) (x / 2 ^ 11 % 128) (x / 2 ^ 18 % 128)
      (x / 2 ^ 25 % 128) (x / 2 ^ 32 % 128) (x / 2 ^ 39 % 32) (x / 2 ^ 44 % 16)
      (x / 2 ^ 48 % 65536) := by
  simp only [pack]
  norm_num
  omega

theorem set_ruota_pack (r a b c d e dd m y v : Nat) (hr : r < 16) :
    set_ruota (pack r a b c d e dd m y) v = pack (v % 16) a b c d e dd m y := by
  simp only [set_ruota, set_field, pack, Nat.pow_zero, Nat.mod_one, Nat.div_one,
    Nat.zero_add, Nat.mul_one]
  norm_num
  omega

theorem set_a_pack (r a b c d e dd m y v : Nat) (hr : r < 16) (ha : a < 128) :
    set_a (pack r a b c d e dd m y) v = pack r (v % 128) b c d e dd m y := by
  simp only [set_a, set_field, pack]
  norm_num
  omega

theorem set_b_pack (r a b c d e dd m y v : Nat) (hr : r < 16) (ha : a < 128) (hb : b < 128) :
    set_b (pack r a b c d e dd m y) v = pack r a (v % 128) c d e dd m y := by
  simp only [set_b, set_field, pack]
  norm_num
  omega

theorem set_c_pack (r a b c d e dd m y v : Nat) (hr : r < 16) (ha : a < 128) (hb : b < 128) (hc : c < 128) :
    set_c (pack r a b c d e dd m y) v = pack r a b (v % 128) d e dd m y := by
  simp only [set_c, set_field, pack]
  norm_num
  omega

theorem set_d_pack (r a b c d e dd m y v : Nat) (hr : r < 16) (ha : a < 128) (hb : b < 128) (hc : c < 128) (hd : d < 128) :
    set_d (pack r a b c d e dd m y) v = pack r a b c (v % 128) e dd m y := by
  simp only [set_d, set_field, pack]
  norm_num
  omega

theorem set_e_pack (r a b c d e dd m y v : Nat) (hr : r < 16) (ha : a < 128) (hb : b < 128) (hc : c < 128) (hd : d < 128) (he : e < 128) :
    set_e (pack r a b c d e dd m y) v = pack r a b c d (v % 128) dd m y := by
  simp only [set_e, set_field, pack]
  norm_num
  omega

theorem set_day_pack (r a b c d e dd m y v : Nat) (hr : r < 16) (ha : a < 128) (hb : b < 128) (hc : c < 128) (hd : d < 128) (he : e < 128) (hdd : dd < 32) :
    set_day (pack r a b c d e dd m y) v = pack r a b c d e (v % 32) m y := by
  simp only [set_day, set_field, pack]
  norm_num
  omega

theorem set_month_pack (r a b c d e dd m y v : Nat) (hr : r < 16) (ha : a < 128) (hb : b < 128) (hc : c < 128) (hd : d < 128) (he : e < 128) (hdd : dd < 32) (hm : m < 16) :
    set_month (pack r a b c d e dd m y) v = pack r a b c d e dd (v % 16) y := by
  simp only [set_month, set_field, pack]
  norm_num
  omega

theorem set_year_pack (r a b c d e dd m y v : Nat) (hr : r < 16) (ha : a < 128) (hb : b < 128) (hc : c < 128) (hd : d < 128) (he : e < 128) (hdd : dd < 32) (hm : m < 16) (hy : y < 65536) :
    set_year (pack r a b c d e dd m y) v = pack r a b c d e dd m (v % 65536) := by
  simp only [set_year, set_field, pack]
  norm_num
  omega

theorem bits_ruota_pack (r a b c d e dd m y : Nat) (hr : r < 16) :
    bits_ruota (pack r a b c d e dd m y) = r := by
  simp only [bits_ruota, get_field, pack, Nat.pow_zero, Nat.div_one]
  norm_num
  omega

theorem bits_a_pack (r a b c d e dd m y : Nat) (hr : r < 16) (ha : a < 128) :
    bits_a (pack r a b c d e dd m y) = a := by
  simp only [bits_a, get_field, pack]
  norm_num
  omega

theorem bits_b_pack (r a b c d e dd m y : Nat) (hr : r < 16) (ha : a < 128) (hb : b < 128) :
    bits_b (pack r a b c d e dd m y) = b := by
  simp only [bits_b, get_field, pack]
  norm_num
  omega

theorem bits_c_pack (r a b c d e dd m y : Nat) (hr : r < 16) (ha : a < 128) (hb : b < 128) (hc : c < 128) :
    bits_c (pack r a b c d e dd m y) = c := by
  simp only [bits_c, get_field, pack]
  norm_num
  omega

theorem bits_d_pack (r a b c d e dd m y : Nat) (hr : r < 16) (ha : a < 128) (hb : b < 128) (hc : c < 128) (hd : d < 128) :
    bits_d (pack r a b c d e dd m y) = d := by
  simp only [bits_d, get_field, pack]
  norm_num
  omega

theorem bits_e_pack (r a b c d e dd m y : Nat) (hr : r < 16) (ha : a < 128) (hb : b < 128) (hc : c < 128) (hd : d < 128) (he : e < 128) :
    bits_e (pack r a b c d e dd m y) = e := by
  simp only [bits_e, get_field, pack]
  norm_num
  omega

theorem bits_day_pack (r a b c d e dd m y : Nat) (hr : r < 16) (ha : a < 128) (hb : b < 128) (hc : c < 128) (hd : d < 128) (he : e < 128) (hdd : dd < 32) :
    bits_day (pack r a b c d e dd m y) = dd := by
  simp only [bits_day, get_field, pack]
  norm_num
  omega

theorem bits_month_pack (r a b c d e dd m y : Nat) (hr : r < 16) (ha : a < 128) (hb : b < 128) (hc : c < 128) (hd : d < 128) (he : e < 128) (hdd : dd < 32) (hm : m < 16) :
    bits_month (pack r a b c d e dd m y) = m := by
  simp only [bits_month, get_field, pack]
  norm_num
  omega

theorem bits_year_pack (r a b c d e dd m y : Nat) (hr : r < 16) (ha : a < 128) (hb : b < 128) (hc : c < 128) (hd : d < 128) (he : e < 128) (hdd : dd < 32) (hm : m < 16) (hy : y < 65536) :
    bits_year (pack r a b c d e dd m y) = y := by
  simp only [bits_year, get_field, pack]
  norm_num
  omega

theorem make_extraction_eq (ex0 a b c d e r y m dd : Nat) :
    make_extraction ex0 a b c d e r y m dd =
      pack (r % 16) (a % 128) (b % 128) (c % 128) (d % 128) (e % 128) (dd % 32)
        (m % 16) (y % 65536) := by
  have h16 : ∀ n : Nat, n % 16 < 16 := fun n => Nat.mod_lt _ (by norm_num)
  have h128 : ∀ n : Nat, n % 128 < 128 := fun n => Nat.mod_lt _ (by norm_num)
  have h32 : ∀ n : Nat, n % 32 < 32 := fun n => Nat.mod_lt _ (by norm_num)
  have h65536 : ∀ n : Nat, n % 65536 < 65536 := fun n => Nat.mod_lt _ (by norm_num)
  simp only [make_extraction]
  rw [unpack ex0]
  rw [set_a_pack _ _ _ _ _ _ _ _ _ _ (h16 _) (h128 _)]
  rw [set_b_pack _ _ _ _ _ _ _ _ _ _ (h16 _) (h128 _) (h128 _)]
  rw [set_c_pack _ _ _ _ _ _ _ _ _ _ (h16 _) (h128 _) (h128 _) (h128 _)]
  rw [set_d_pack _ _ _ _ _ _ _ _ _ _ (h16 _) (h128 _) (h128 _) (h128 _) (h128 _)]
  rw [set_e_pack _ _ _ _ _ _ _ _ _ _ (h16 _) (h128 _) (h128 _) (h128 _) (h128 _) (h128 _)]
  rw [set_ruota_pack _ _ _ _ _ _ _ _ _ _ (h16 _)]
  rw [set_year_pack _ _ _ _ _ _ _ _ _ _ (h16 _) (h128 _) (h128 _) (h128 _) (h128 _) (h128 _)
    (h32 _) (h16 _) (h65536 _)]
  rw [set_month_pack _ _ _ _ _ _ _ _ _ _ (h16 _) (h128 _) (h128 _) (h128 _) (h128 _) (h128 _)
    (h32 _) (h16 _)]
  rw [set_day_pack _ _ _ _ _ _ _ _ _ _ (h16 _) (h128 _) (h128 _) (h128 _) (h128 _) (h128 _)
    (h32 _)]

theorem decode_pack (r a b c d e dd m y : Nat) (hr : r < 16) (ha : a < 128) (hb : b < 128)
    (hc : c < 128) (hd : d < 128) (he : e < 128) (hdd : dd < 32) (hm : m < 16)
    (hy : y < 65536) :
    decode (pack r a b c d e dd m y) =
      { ruota := r, a := a, b := b, c := c, d := d, e := e, day := dd, month := m,
        year := y } := by
  simp only [decode]
  rw [bits_ruota_pack _ _ _ _ _ _ _ _ _ hr, bits_a_pack _ _ _ _ _ _ _ _ _ hr ha,
    bits_b_pack _ _ _ _ _ _ _ _ _ hr ha hb, bits_c_pack _ _ _ _ _ _ _ _ _ hr ha hb hc,
    bits_d_pack _ _ _ _ _ _ _ _ _ hr ha hb hc hd,
    bits_e_pack _ _ _ _ _ _ _ _ _ hr ha hb hc hd he,
    bits_day_pack _ _ _ _ _ _ _ _ _ hr ha hb hc hd he hdd,
    bits_month_pack _ _ _ _ _ _ _ _ _ hr ha hb hc hd he hdd hm,
    bits_year_pack _ _ _ _ _ _ _ _ _ hr ha hb hc hd he hdd hm hy]

/-! ## Serializer lemmas -/

theorem or_eq_add_of_aligned (k x y : Nat) (hx : x % 2 ^ k = 0) (hy : y < 2 ^ k) :
    x ||| y = x + y := by
  have hxk : x = 2 ^ k * (x / 2 ^ k) :=
    (Nat.mul_div_cancel' (Nat.dvd_of_mod_eq_zero hx)).symm
  rw [hxk]
  exact (Nat.mul_add_lt_is_or hy _).symm

theorem value_64bit_eq (raw : Nat) :
    value_64bit raw =
      [raw / 2 ^ 56 % 256, raw / 2 ^ 48 % 256, raw / 2 ^ 40 % 256, raw / 2 ^ 32 % 256,
        raw / 2 ^ 24 % 256, raw / 2 ^ 16 % 256, raw / 2 ^ 8 % 256, raw % 256] := by
  have h255 : (0xFF : Nat) = 2 ^ 8 - 1 := by norm_num
  simp only [value_64bit, h255, Nat.and_pow_two_sub_one_eq_mod, Nat.shiftRight_eq_div_pow,
    Nat.pow_zero, Nat.div_one]

theorem or_bytes_eq (c0 c1 c2 c3 c4 c5 c6 c7 : Nat) (h1 : c1 < 256)
    (h2 : c2 < 256) (h3 : c3 < 256) (h4 : c4 < 256) (h5 : c5 < 256) (h6 : c6 < 256)
    (h7 : c7 < 256) :
    (c0 * 2 ^ 56 ||| c1 * 2 ^ 48 ||| c2 * 2 ^ 40 ||| c3 * 2 ^ 32 ||| c4 * 2 ^ 24 |||
        c5 * 2 ^ 16 ||| c6 * 2 ^ 8 ||| c7) =
      c0 * 2 ^ 56 + c1 * 2 ^ 48 + c2 * 2 ^ 40 + c3 * 2 ^ 32 + c4 * 2 ^ 24 + c5 * 2 ^ 16 +
        c6 * 2 ^ 8 + c7 := by
  rw [or_eq_add_of_aligned 56 (c0 * 2 ^ 56) (c1 * 2 ^ 48) (by omega) (by omega)]
  rw [or_eq_add_of_aligned 48 (c0 * 2 ^ 56 + c1 * 2 ^ 48) (c2 * 2 ^ 40) (by omega) (by omega)]
  rw [or_eq_add_of_aligned 40 (c0 * 2 ^ 56 + c1 * 2 ^ 48 + c2 * 2 ^ 40) (c3 * 2 ^ 32)
    (by omega) (by omega)]
  rw [or_eq_add_of_aligned 32 (c0 * 2 ^ 56 + c1 * 2 ^ 48 + c2 * 2 ^ 40 + c3 * 2 ^ 32)
    (c4 * 2 ^ 24) (by omega) (by omega)]
  rw [or_eq_add_of_aligned 24
    (c0 * 2 ^ 56 + c1 * 2 ^ 48 + c2 * 2 ^ 40 + c3 * 2 ^ 32 + c4 * 2 ^ 24) (c5 * 2 ^ 16)
    (by omega) (by omega)]
  rw [or_eq_add_of_aligned 16
    (c0 * 2 ^ 56 + c1 * 2 ^ 48 + c2 * 2 ^ 40 + c3 * 2 ^ 32 + c4 * 2 ^ 24 + c5 * 2 ^ 16)
    (c6 * 2 ^ 8) (by omega) (by omega)]
  rw [or_eq_add_of_aligned 8
    (c0 * 2 ^ 56 + c1 * 2 ^ 48 + c2 * 2 ^ 40 + c3 * 2 ^ 32 + c4 * 2 ^ 24 + c5 * 2 ^ 16 +
      c6 * 2 ^ 8) c7 (by omega) (by omega)]

theorem current_ex_eq (b0 b1 b2 b3 b4 b5 b6 b7 : Nat) :
    current_ex b0 b1 b2 b3 b4 b5 b6 b7 =
      b0 % 256 * 2 ^ 56 + b1 % 256 * 2 ^ 48 + b2 % 256 * 2 ^ 40 + b3 % 256 * 2 ^ 32 +
        b4 % 256 * 2 ^ 24 + b5 % 256 * 2 ^ 16 + b6 % 256 * 2 ^ 8 + b7 % 256 := by
  have hb : ∀ n : Nat, n % 256 < 256 := fun n => Nat.mod_lt _ (by norm_num)
  simp only [current_ex, Nat.shiftLeft_eq, Nat.pow_zero, Nat.mul_one]
  rw [or_bytes_eq _ _ _ _ _ _ _ _ (hb b1) (hb b2) (hb b3) (hb b4) (hb b5) (hb b6)
    (hb b7)]
  have := hb b0; have := hb b1; have := hb b2; have := hb b3
  have := hb b4; have := hb b5; have := hb b6; have := hb b7
  omega

theorem current_ex_value_64bit (raw : Nat) (h : raw < 2 ^ 64) :
    current_ex (raw / 2 ^ 56 % 256) (raw / 2 ^ 48 % 256) (raw / 2 ^ 40 % 256)
      (raw / 2 ^ 32 % 256) (raw / 2 ^ 24 % 256) (raw / 2 ^ 16 % 256) (raw / 2 ^ 8 % 256)
      (raw % 256) = raw := by
  refine (current_ex_eq _ _ _ _ _ _ _ _).trans ?_
  norm_num at h ⊢
  omega

theorem verify_loop_save_loop (seq : List Nat) (h : ∀ r ∈ seq, r < 2 ^ 64) (kounter : Nat)
    (tail : List Nat) :
    verify_loop seq kounter (save_loop seq ++ tail) = verify_result.ok := by
  induction seq generalizing kounter with
  | nil => simp [verify_loop]
  | cons e rest ih =>
    have he : e < 2 ^ 64 := h e (List.mem_cons_self _ _)
    have hrest : ∀ r ∈ rest, r < 2 ^ 64 := fun r hr => h r (List.mem_cons_of_mem _ hr)
    simp only [save_loop, value_64bit_eq, List.cons_append, List.nil_append, verify_loop,
      current_ex_value_64bit e he, ne_eq, not_true_eq_false, if_false]
    exact ih hrest _

theorem save_loop_length (seq : List Nat) : (save_loop seq).length = 8 * seq.length := by
  induction seq with
  | nil => rfl
  | cons e rest ih => simp [save_loop, value_64bit, ih]; omega

theorem save_loop_getElem (seq : List Nat) (i : Nat) (hi : i < seq.length) (k : Nat)
    (hk : k < 8) :
    (save_loop seq)[8 * i + k]? = some ((seq[i] >>> (56 - 8 * k)) &&& 0xFF) := by
  induction seq generalizing i with
  | nil => simp at hi
  | cons e rest ih =>
    cases i with
    | zero =>
      simp only [save_loop, value_64bit, List.getElem_cons_zero]
      interval_cases k <;> simp
    | succ j =>
      have hj : j < rest.length := by simpa using hi
      have hlen : (value_64bit e).length = 8 := rfl
      have hidx : 8 * (j + 1) + k = (value_64bit e).length + (8 * j + k) := by
        rw [hlen]; omega
      simp only [save_loop, List.getElem_cons_succ]
      rw [hidx, List.getElem?_append_right (Nat.le_add_right _ _), Nat.add_sub_cancel_left]
      exact ih j hj

/-! ## Field parser lemmas -/

theorem isdigit_cases (c : Char) (h : isdigit c = true) :
    c ∈ ['0', '1', '2', '3', '4', '5', '6', '7', '8', '9'] := by
  have hc : c = Char.ofNat c.toNat := (Char.ofNat_toNat c).symm
  simp only [isdigit, Bool.and_eq_true, decide_eq_true_eq] at h
  obtain ⟨h1, h2⟩ := h
  generalize c.toNat = n at hc h1 h2
  subst hc
  interval_cases n <;> decide

theorem convert_number_non_zero_digits (c1 c2 : Char) (h1 : isdigit c1 = true)
    (h2 : isdigit c2 = true) :
    convert_number_non_zero [c1, c2] =
      if [c1, c2] = "00".toList then 0 else 10 * (c1.toNat - 48) + (c2.toNat - 48) := by
  have m1 := isdigit_cases c1 h1
  have m2 := isdigit_cases c2 h2
  simp only [List.mem_cons, List.mem_singleton, List.not_mem_nil, or_false] at m1 m2
  rcases m1 with rfl | rfl | rfl | rfl | rfl | rfl | rfl | rfl | rfl | rfl <;>
    rcases m2 with rfl | rfl | rfl | rfl | rfl | rfl | rfl | rfl | rfl | rfl <;> decide

theorem c_str_placeholder : c_str "--".toList = "--".toList := by decide

theorem convert_number_non_zero_placeholder :
    convert_number_non_zero "--".toList = 0 := by decide

theorem number_token_ok_branch (t : List Char) (h : number_token_ok t) :
    ("--".toList ≠ c_str t ↔ t ≠ "--".toList) ∧
      (t ≠ "--".toList → number_token_valid t) := by
  rcases h with rfl | hv
  · refine ⟨⟨fun h => absurd c_str_placeholder.symm h, fun h => absurd rfl h⟩, ?_⟩
    intro hne; exact absurd rfl hne
  · have hne : "--".toList ≠ c_str t := by
      intro heq
      have h0 := hv.1
      rw [← heq, convert_number_non_zero_placeholder] at h0
      omega
    have hne2 : t ≠ "--".toList := by
      intro heq
      apply hne
      rw [heq, c_str_placeholder]
    exact ⟨⟨fun _ => hne2, fun _ => hne⟩, fun _ => hv⟩

/-! ## The token loop on a well-formed line -/

theorem make_extraction_encode (ex0 a b c d e r y m dd : Nat) :
    make_extraction ex0 a b c d e r y m dd =
      encode 0 { ruota := r, a := a, b := b, c := c, d := d, e := e, day := dd,
                 month := m, year := y } := by
  simp only [encode, make_extraction_eq]

theorem record_token_day (year : Nat) (L : List ruota_t) (ex0 : Nat → Nat)
    (s : record_state) (t : List Char) (hf : s.is_first_record = true)
    (ht : day_token_valid t) :
    record_token year L ex0 s t =
      token_step.next { s with current_day := convert_number_non_zero (c_str t),
                               is_first_record := false, is_second_record := true } := by
  obtain ⟨h1, h2⟩ := ht
  have hne : "END".toList ≠ c_str t := by
    intro heq
    rw [← heq] at h1
    exact absurd h1 (by decide)
  simp only [record_token, hf, if_true, hne, if_false]
  rw [if_neg (by omega)]

theorem record_token_month (year : Nat) (L : List ruota_t) (ex0 : Nat → Nat)
    (s : record_state) (t : List Char) (hf : s.is_first_record = false)
    (hs : s.is_second_record = true) (ht : month_token_valid t) :
    record_token year L ex0 s t =
      token_step.next { s with current_month := convert_string_to_mese (c_str t),
                               is_second_record := false } := by
  have hne : mese_t.NULL_MESE ≠ convert_string_to_mese (c_str t) := fun h => ht h.symm
  simp only [record_token, hf, hs, if_true, hne, if_false, Bool.false_eq_true]

theorem record_token_number (year : Nat) (L : List ruota_t) (ex0 : Nat → Nat)
    (s : record_state) (t : List Char) (hf : s.is_first_record = false)
    (hs : s.is_second_record = false) (ht : number_token_ok t) :
    record_token year L ex0 s t =
      finish_number year L ex0 (store_number s (number_value t)) := by
  obtain ⟨hbr, hval⟩ := number_token_ok_branch t ht
  by_cases hp : t = "--".toList
  · subst hp
    have hc : ¬ ("--".toList ≠ c_str "--".toList) := fun h => h c_str_placeholder.symm
    simp only [record_token, hf, hs, Bool.false_eq_true, if_false, number_value, if_true]
    rw [if_neg hc]
  · have hc : "--".toList ≠ c_str t := hbr.2 hp
    obtain ⟨h1, h2⟩ := hval hp
    simp only [record_token, hf, hs, Bool.false_eq_true, if_false, hc, number_value, hp,
      if_true, ne_eq, not_false_eq_true]
    rw [if_neg (by omega)]

/-- The state after a complete group of five valid number tokens. -/
theorem record_tokens_group (year : Nat) (L : List ruota_t) (ex0 : Nat → Nat)
    (s : record_state) (hf : s.is_first_record = false) (hs : s.is_second_record = false)
    (hiter : s.current_number_iter = 1) (r : ruota_t)
    (hr : L[s.current_r_iter]? = some r) (g : number_group)
    (h1 : number_token_ok g.t1) (h2 : number_token_ok g.t2) (h3 : number_token_ok g.t3)
    (h4 : number_token_ok g.t4) (h5 : number_token_ok g.t5) (more : List (List Char)) :
    record_tokens year L ex0 (g.t1 :: g.t2 :: g.t3 :: g.t4 :: g.t5 :: more) s =
      if s.current_r_iter + 1 = L.length then
        token_step.break_end
          { s with
            a_num := number_value g.t1, b_num := number_value g.t2,
            c_num := number_value g.t3, d_num := number_value g.t4,
            e_num := number_value g.t5, current_number_iter := 1,
            current_r_iter := s.current_r_iter + 1,
            extraction_vec := s.extraction_vec ++
              (if number_value g.t1 ≠ 0 then
                [make_extraction (ex0 s.extraction_vec.length) (number_value g.t1)
                  (number_value g.t2) (number_value g.t3) (number_value g.t4)
                  (number_value g.t5) r.val year s.current_month.val s.current_day]
               else []) }
      else
        record_tokens year L ex0 more
          { s with
            a_num := number_value g.t1, b_num := number_value g.t2,
            c_num := number_value g.t3, d_num := number_value g.t4,
            e_num := number_value g.t5, current_number_iter := 1,
            current_r_iter := s.current_r_iter + 1,
            extraction_vec := s.extraction_vec ++
              (if number_value g.t1 ≠ 0 then
                [make_extraction (ex0 s.extraction_vec.length) (number_value g.t1)
                  (number_value g.t2) (number_value g.t3) (number_value g.t4)
                  (number_value g.t5) r.val year s.current_month.val s.current_day]
               else []) } := by
  simp only [record_tokens, record_token_number, hf, hs, h1, h2, h3, h4, h5, store_number,
    hiter, finish_number, Nat.reduceAdd, gt_iff_lt, Nat.reduceLT, if_false, if_true, hr]
  by_cases hv : number_value g.t1 = 0
  · by_cases hl : s.current_r_iter + 1 = L.length <;> simp [hv, hl]
  · by_cases hl : s.current_r_iter + 1 = L.length <;> simp [hv, hl]

theorem number_value_ne_zero (t : List Char) (h : number_token_ok t) :
    number_value t ≠ 0 ↔ t ≠ "--".toList := by
  by_cases hp : t = "--".toList
  · simp [number_value, hp]
  · have hv := (number_token_ok_branch t h).2 hp
    have h1 := hv.1
    simp only [number_value, hp, if_false, ne_eq, not_false_eq_true, iff_true]
    omega

theorem record_tokens_group_state (year : Nat) (L : List ruota_t) (ex0 : Nat → Nat)
    (s : record_state) (hf : s.is_first_record = false) (hs : s.is_second_record = false)
    (hiter : s.current_number_iter = 1) (r : ruota_t)
    (hr : L[s.current_r_iter]? = some r) (g : number_group)
    (h1 : number_token_ok g.t1) (h2 : number_token_ok g.t2) (h3 : number_token_ok g.t3)
    (h4 : number_token_ok g.t4) (h5 : number_token_ok g.t5) (more : List (List Char)) :
    ∃ s1 : record_state, s1.is_first_record = false ∧ s1.is_second_record = false ∧
      s1.current_number_iter = 1 ∧ s1.current_r_iter = s.current_r_iter + 1 ∧
      s1.current_day = s.current_day ∧ s1.current_month = s.current_month ∧
      s1.extraction_vec = s.extraction_vec ++
        (if number_value g.t1 ≠ 0 then
          [make_extraction (ex0 s.extraction_vec.length) (number_value g.t1)
            (number_value g.t2) (number_value g.t3) (number_value g.t4)
            (number_value g.t5) r.val year s.current_month.val s.current_day]
         else []) ∧
      record_tokens year L ex0 (g.t1 :: g.t2 :: g.t3 :: g.t4 :: g.t5 :: more) s =
        if s.current_r_iter + 1 = L.length then token_step.break_end s1
        else record_tokens year L ex0 more s1 :=
  ⟨{ s with
      a_num := number_value g.t1, b_num := number_value g.t2,
      c_num := number_value g.t3, d_num := number_value g.t4,
      e_num := number_value g.t5, current_number_iter := 1,
      current_r_iter := s.current_r_iter + 1,
      extraction_vec := s.extraction_vec ++
        (if number_value g.t1 ≠ 0 then
          [make_extraction (ex0 s.extraction_vec.length) (number_value g.t1)
            (number_value g.t2) (number_value g.t3) (number_value g.t4)
            (number_value g.t5) r.val year s.current_month.val s.current_day]
         else []) },
    hf, hs, rfl, rfl, rfl, rfl, rfl,
    record_tokens_group year L ex0 s hf hs hiter r hr g h1 h2 h3 h4 h5 more⟩

/-- The token loop from the first number token of a line with `k` groups left:
it ends at the `break` that follows the last group, having appended the draws
of the groups. -/
theorem record_tokens_groups (year : Nat) (L : List ruota_t) (ex0 : Nat → Nat)
    (day month : List Char) :
    ∀ (k : Nat) (rest : List (List Char)) (s : record_state),
      1 ≤ k → rest.length = 5 * k + 1 → s.current_r_iter + k = L.length →
      s.is_first_record = false → s.is_second_record = false →
      s.current_number_iter = 1 →
      s.current_day = convert_number_non_zero (c_str day) →
      s.current_month = convert_string_to_mese (c_str month) →
      (∀ t ∈ rest.take (5 * k), number_token_ok t) →
      ∃ s1, record_tokens year L ex0 rest s = token_step.break_end s1 ∧
        s1.extraction_vec = s.extraction_vec ++
          (((chunk5 rest).zip (L.drop s.current_r_iter)).filterMap
            (fun p => group_draw year day month p.1 p.2)).map (encode 0) := by
  intro k
  induction k with
  | zero => intro rest s hk; omega
  | succ k ih =>
    intro rest s _ hlen hidx hf hs hiter hday hmonth hok
    obtain _ | ⟨t1, _ | ⟨t2, _ | ⟨t3, _ | ⟨t4, _ | ⟨t5, more⟩⟩⟩⟩⟩ := rest <;>
      simp only [List.length_nil, List.length_cons] at hlen <;> try omega
    have hmore : more.length = 5 * k + 1 := by omega
    have hlt : s.current_r_iter < L.length := by omega
    have hr : L[s.current_r_iter]? = some L[s.current_r_iter] := List.getElem?_eq_getElem hlt
    have htake : (t1 :: t2 :: t3 :: t4 :: t5 :: more).take (5 * (k + 1)) =
        t1 :: t2 :: t3 :: t4 :: t5 :: more.take (5 * k) := by
      have : 5 * (k + 1) = 5 * k + 1 + 1 + 1 + 1 + 1 := by omega
      rw [this]
      simp only [List.take_succ_cons]
    rw [htake] at hok
    have h1 : number_token_ok t1 := hok t1 (by simp)
    have h2 : number_token_ok t2 := hok t2 (by simp)
    have h3 : number_token_ok t3 := hok t3 (by simp)
    have h4 : number_token_ok t4 := hok t4 (by simp)
    have h5 : number_token_ok t5 := hok t5 (by simp)
    obtain ⟨s2, hf2, hs2, hiter2, hidx2, hday2, hmonth2, hvec2, hgroup⟩ :=
      record_tokens_group_state year L ex0 s hf hs hiter L[s.current_r_iter] hr
        ⟨t1, t2, t3, t4, t5⟩ h1 h2 h3 h4 h5 more
    simp only at hgroup hvec2
    rw [hgroup]
    have hdrop : L.drop s.current_r_iter =
        L[s.current_r_iter] :: L.drop (s.current_r_iter + 1) :=
      List.drop_eq_getElem_cons hlt
    have hdraw : (if number_value t1 ≠ 0 then
          [make_extraction (ex0 s.extraction_vec.length) (number_value t1) (number_value t2)
            (number_value t3) (number_value t4) (number_value t5) L[s.current_r_iter].val
            year s.current_month.val s.current_day]
        else []) =
        ((group_draw year day month ⟨t1, t2, t3, t4, t5⟩ L[s.current_r_iter]).toList).map
          (encode 0) := by
      by_cases hp : t1 = "--".toList
      · have hz : ¬ number_value t1 ≠ 0 := fun h => ((number_value_ne_zero t1 h1).1 h) hp
        rw [if_neg hz]
        simp only [group_draw]
        rw [if_pos hp]
        rfl
      · have hnz : number_value t1 ≠ 0 := (number_value_ne_zero t1 h1).2 hp
        rw [if_pos hnz]
        simp only [group_draw]
        rw [if_neg hp]
        simp only [Option.toList, List.map, make_extraction_encode, hday, hmonth]
    rw [hdraw] at hvec2
    by_cases hlast : s.current_r_iter + 1 = L.length
    · rw [if_pos hlast]
      refine ⟨s2, rfl, ?_⟩
      rw [hvec2]
      have hk0 : k = 0 := by omega
      subst hk0
      have hnil : L.drop (s.current_r_iter + 1) = [] := by
        rw [List.drop_eq_nil_iff]; omega
      obtain _ | ⟨t6, _ | _⟩ := more <;> simp only [List.length_nil, List.length_cons] at hmore <;>
        try omega
      simp only [chunk5, hdrop, List.zip_cons_cons, List.zip_nil_left, hnil]
      cases hgd : group_draw year day month ⟨t1, t2, t3, t4, t5⟩ L[s.current_r_iter] <;>
        simp [hgd]
    · rw [if_neg hlast]
      obtain ⟨s1, hrun, hvec⟩ := ih more s2 (by omega) hmore (by omega) hf2 hs2 hiter2
        (hday2.trans hday) (hmonth2.trans hmonth) (fun t ht => hok t (by simp [ht]))
      refine ⟨s1, hrun, ?_⟩
      rw [hvec, hvec2, hidx2]
      simp only [chunk5, hdrop, List.zip_cons_cons, List.append_assoc]
      cases hgd : group_draw year day month ⟨t1, t2, t3, t4, t5⟩ L[s.current_r_iter] <;>
        simp [hgd]

/-- The body of the `while` loop on a well-formed record line: the loop goes
on with the next line and the draws of the line have been appended. -/
theorem process_record_well_formed (year : Nat) (L : List ruota_t) (ex0 : Nat → Nat)
    (vec : List Nat) (record day month : List Char) (rest : List (List Char))
    (htok : tokenizer record = day :: month :: rest)
    (hlen : rest.length = 5 * L.length + 1) (hday : day_token_valid day)
    (hmonth : month_token_valid month)
    (hnum : ∀ t ∈ examined_numbers L rest, number_token_ok t) :
    process_record year L ex0 vec record =
      record_step.next_line
        (vec ++ (line_draws year L (day :: month :: rest)).map (encode 0)) := by
  have hsize : ¬ ((day :: month :: rest).length = 1 ∧
      (day :: month :: rest).head? = some "END".toList) := by
    simp only [List.length_cons]; omega
  have hsize2 : ¬ ((day :: month :: rest).length ≠ 2 + 5 * L.length + 1) := by
    simp only [List.length_cons]; omega
  simp only [process_record, htok]
  rw [if_neg hsize, if_neg hsize2]
  rw [record_tokens, record_token_day year L ex0 _ day rfl hday]
  simp only []
  rw [record_tokens, record_token_month year L ex0 _ month rfl rfl hmonth]
  simp only [line_draws]
  by_cases hn : L.length = 0
  · have hL : L = [] := List.length_eq_zero.mp hn
    subst hL
    obtain _ | ⟨x, _ | _⟩ := rest <;> simp only [List.length_nil, List.length_cons] at hlen <;>
      try omega
    have hx : number_token_ok x := hnum x (by simp [examined_numbers])
    simp only [record_tokens]
    rw [record_token_number year [] ex0 _ x rfl rfl hx]
    simp [store_number, finish_number, record_init, chunk5]
  · have hmax : max (5 * L.length) 1 = 5 * L.length := by omega
    rw [examined_numbers, hmax] at hnum
    obtain ⟨s1, hrun, hvec⟩ := record_tokens_groups year L ex0 day month L.length rest
      { record_init vec with
        current_day := convert_number_non_zero (c_str day), is_first_record := false,
        current_month := convert_string_to_mese (c_str month),
        is_second_record := false }
      (by omega) hlen (by simp [record_init]) rfl rfl rfl rfl rfl hnum
    simp only [record_init] at hrun hvec ⊢
    rw [hrun]
    simp only [hvec, List.drop_zero]

/-! ## Codec round trip -/

theorem decode_encode (ex0 : Nat) (d : bits_t) (hr : d.ruota < 16) (ha : d.a < 128)
    (hb : d.b < 128) (hc : d.c < 128) (hd : d.d < 128) (he : d.e < 128)
    (hdd : d.day < 32) (hm : d.month < 16) (hy : d.year < 65536) :
    decode (encode ex0 d) = d := by
  simp only [encode, make_extraction_eq]
  rw [Nat.mod_eq_of_lt hr, Nat.mod_eq_of_lt ha, Nat.mod_eq_of_lt hb, Nat.mod_eq_of_lt hc,
    Nat.mod_eq_of_lt hd, Nat.mod_eq_of_lt he, Nat.mod_eq_of_lt hdd, Nat.mod_eq_of_lt hm,
    Nat.mod_eq_of_lt hy]
  exact decode_pack _ _ _ _ _ _ _ _ _ hr ha hb hc hd he hdd hm hy

theorem ruota_val_le (r : ruota_t) : r.val ≤ 12 := by
  cases r <;> simp [ruota_t.val]

theorem mese_val_le (m : mese_t) : m.val ≤ 12 := by
  cases m <;> simp [mese_t.val]

theorem mese_val_pos (m : mese_t) (h : m ≠ mese_t.NULL_MESE) : 1 ≤ m.val := by
  cases m <;> simp [mese_t.val] at h ⊢

theorem number_value_le (t : List Char) (h : number_token_ok t) : number_value t ≤ 90 := by
  by_cases hp : t = "--".toList
  · simp [number_value, hp]
  · have hv := (number_token_ok_branch t h).2 hp
    simp only [number_value, hp, if_false]
    exact hv.2

/-! ## Draws of a well-formed line -/

theorem chunk5_ok : ∀ (k : Nat) (rest : List (List Char)), rest.length = 5 * k + 1 →
    (∀ t ∈ rest.take (5 * k), number_token_ok t) →
    ∀ g ∈ chunk5 rest, number_token_ok g.t1 ∧ number_token_ok g.t2 ∧
      number_token_ok g.t3 ∧ number_token_ok g.t4 ∧ number_token_ok g.t5 := by
  intro k
  induction k with
  | zero =>
    intro rest hlen _ g hg
    obtain _ | ⟨x, _ | _⟩ := rest <;> simp only [List.length_nil, List.length_cons] at hlen <;>
      try omega
    simp [chunk5] at hg
  | succ k ih =>
    intro rest hlen hok g hg
    obtain _ | ⟨t1, _ | ⟨t2, _ | ⟨t3, _ | ⟨t4, _ | ⟨t5, more⟩⟩⟩⟩⟩ := rest <;>
      simp only [List.length_nil, List.length_cons] at hlen <;> try omega
    have htake : (t1 :: t2 :: t3 :: t4 :: t5 :: more).take (5 * (k + 1)) =
        t1 :: t2 :: t3 :: t4 :: t5 :: more.take (5 * k) := by
      have : 5 * (k + 1) = 5 * k + 1 + 1 + 1 + 1 + 1 := by omega
      rw [this]
      simp only [List.take_succ_cons]
    rw [htake] at hok
    simp only [chunk5, List.mem_cons] at hg
    rcases hg with rfl | hg
    · exact ⟨hok t1 (by simp), hok t2 (by simp), hok t3 (by simp), hok t4 (by simp),
        hok t5 (by simp)⟩
    · exact ih more (by omega) (fun t ht => hok t (by simp [ht])) g hg

theorem line_draws_fit (year : Nat) (hy : year ≤ 65535) (L : List ruota_t)
    (day month : List Char) (rest : List (List Char))
    (hlen : rest.length = 5 * L.length + 1) (hday : day_token_valid day)
    (hnum : ∀ t ∈ rest.take (5 * L.length), number_token_ok t) :
    ∀ d ∈ line_draws year L (day :: month :: rest), decode (encode 0 d) = d := by
  intro d hd
  simp only [line_draws, List.mem_filterMap] at hd
  obtain ⟨p, hp, hgd⟩ := hd
  have hg := chunk5_ok L.length rest hlen hnum p.1 (List.of_mem_zip hp).1
  obtain ⟨h1, h2, h3, h4, h5⟩ := hg
  simp only [group_draw] at hgd
  split at hgd
  · exact absurd hgd (by simp)
  · simp only [Option.some.injEq] at hgd
    subst hgd
    have := number_value_le _ h1
    have := number_value_le _ h2
    have := number_value_le _ h3
    have := number_value_le _ h4
    have := number_value_le _ h5
    have := ruota_val_le p.2
    have := mese_val_le (convert_string_to_mese (c_str month))
    have := hday.2
    apply decode_encode <;> simp only <;> omega

/-! ## Invariant of the token loop on an arbitrary line -/

theorem appended_in_range_refl (y : Nat) (vec0 : List Nat) :
    appended_in_range y vec0 vec0 :=
  ⟨[], by simp, by simp⟩

theorem appended_in_range_snoc (y : Nat) (vec0 v : List Nat) (r : Nat)
    (h : appended_in_range y vec0 v) (hr : draw_in_range y (decode r)) :
    appended_in_range y vec0 (v ++ [r]) := by
  obtain ⟨new, rfl, hnew⟩ := h
  refine ⟨new ++ [r], by simp, ?_⟩
  intro x hx
  rcases List.mem_append.mp hx with hx | hx
  · exact hnew x hx
  · simp only [List.mem_singleton] at hx
    subst hx
    exact hr

theorem appended_in_range_trans (y : Nat) (vec0 v w : List Nat)
    (h1 : appended_in_range y vec0 v) (h2 : appended_in_range y v w) :
    appended_in_range y vec0 w := by
  obtain ⟨n1, rfl, hn1⟩ := h1
  obtain ⟨n2, rfl, hn2⟩ := h2
  refine ⟨n1 ++ n2, by simp, ?_⟩
  intro x hx
  rcases List.mem_append.mp hx with hx | hx
  · exact hn1 x hx
  · exact hn2 x hx

theorem make_extraction_in_range (ex0 a b c d e y dd : Nat) (r : ruota_t) (m : mese_t)
    (hy : y ≤ 65535) (ha1 : a ≠ 0) (ha : a ≤ 90) (hb : b ≤ 90) (hc : c ≤ 90) (hd : d ≤ 90)
    (he : e ≤ 90) (hm : m ≠ mese_t.NULL_MESE) (hd1 : 1 ≤ dd) (hd2 : dd ≤ 31) :
    draw_in_range y (decode (make_extraction ex0 a b c d e r.val y m.val dd)) := by
  have hr := ruota_val_le r
  have hm1 := mese_val_pos m hm
  have hm2 := mese_val_le m
  rw [make_extraction_encode, decode_encode _ _ (by simp only; omega) (by simp only; omega)
    (by simp only; omega) (by simp only; omega) (by simp only; omega) (by simp only; omega)
    (by simp only; omega) (by simp only; omega) (by simp only; omega)]
  dsimp only [draw_in_range]
  omega

theorem finish_number_ok (y : Nat) (hy : y ≤ 65535) (L : List ruota_t) (ex0 : Nat → Nat)
    (vec0 : List Nat) (s : record_state) (rem : Nat) (c_number : Nat)
    (hc : c_number ≤ 90) (hf : s.is_first_record = false)
    (hs : s.is_second_record = false) (h : token_inv y L.length vec0 s (rem + 1)) :
    token_step_ok y L.length vec0 rem
      (finish_number y L ex0 (store_number s c_number)) := by
  obtain ⟨hvec, ha, hb, hcc, hd, he, hday, hmonth, hi1, hi5, hcount⟩ := h
  have hph : phase s = 0 := by simp [phase, hf, hs]
  rw [hph] at hcount
  have hday := hday hf
  have hmonth := hmonth hf hs
  have hcases : s.current_number_iter = 1 ∨ s.current_number_iter = 2 ∨
      s.current_number_iter = 3 ∨ s.current_number_iter = 4 ∨
      s.current_number_iter = 5 := by omega
  rcases hcases with hi | hi | hi | hi | hi
  · simp only [store_number, hi, finish_number, Nat.reduceAdd, gt_iff_lt, Nat.reduceLT,
      if_false, token_step_ok]
    exact ⟨hvec, hc, hb, hcc, hd, he, fun _ => hday, fun _ _ => hmonth, by simp, by simp,
      by simp only [phase, hf, hs]; simp; omega⟩
  · simp only [store_number, hi, finish_number, Nat.reduceAdd, gt_iff_lt, Nat.reduceLT,
      if_false, token_step_ok]
    exact ⟨hvec, ha, hc, hcc, hd, he, fun _ => hday, fun _ _ => hmonth, by simp, by simp,
      by simp only [phase, hf, hs]; simp; omega⟩
  · simp only [store_number, hi, finish_number, Nat.reduceAdd, gt_iff_lt, Nat.reduceLT,
      if_false, token_step_ok]
    exact ⟨hvec, ha, hb, hc, hd, he, fun _ => hday, fun _ _ => hmonth, by simp, by simp,
      by simp only [phase, hf, hs]; simp; omega⟩
  · simp only [store_number, hi, finish_number, Nat.reduceAdd, gt_iff_lt, Nat.reduceLT,
      if_false, token_step_ok]
    exact ⟨hvec, ha, hb, hcc, hc, he, fun _ => hday, fun _ _ => hmonth, by simp, by simp,
      by simp only [phase, hf, hs]; simp; omega⟩
  · have hlt : s.current_r_iter < L.length := by omega
    have hr : L[s.current_r_iter]? = some L[s.current_r_iter] := List.getElem?_eq_getElem hlt
    simp only [store_number, hi, finish_number, Nat.reduceAdd, gt_iff_lt, Nat.reduceLT,
      if_true, hr]
    by_cases hz : s.a_num = 0
    · simp only [hz, ne_eq, not_true_eq_false, if_false]
      split
      · exact hvec
      · exact ⟨hvec, by simp, hb, hcc, hd, hc, fun _ => hday, fun _ _ => hmonth, by simp,
          by simp, by simp only [phase, hf, hs]; simp; omega⟩
    · simp only [hz, ne_eq, not_false_eq_true, if_true]
      have hnew := appended_in_range_snoc y vec0 s.extraction_vec _ hvec
        (make_extraction_in_range (ex0 s.extraction_vec.length) s.a_num s.b_num s.c_num
          s.d_num c_number y s.current_day L[s.current_r_iter] s.current_month hy hz ha hb
          hcc hd hc hmonth hday.1 hday.2)
      split
      · exact hnew
      · exact ⟨hnew, ha, hb, hcc, hd, hc, fun _ => hday, fun _ _ => hmonth, by simp,
          by simp, by simp only [phase, hf, hs]; simp; omega⟩

theorem record_token_ok (y : Nat) (hy : y ≤ 65535) (L : List ruota_t) (ex0 : Nat → Nat)
    (vec0 : List Nat) (s : record_state) (rem : Nat) (t : List Char)
    (h : token_inv y L.length vec0 s (rem + 1)) :
    token_step_ok y L.length vec0 rem (record_token y L ex0 s t) := by
  have h0 := h
  obtain ⟨hvec, ha, hb, hc, hd, he, hday, hmonth, hi1, hi5, hcount⟩ := h
  by_cases hf : s.is_first_record = true
  · have hph : phase s = 2 := by simp [phase, hf]
    rw [hph] at hcount
    simp only [record_token, hf, if_true]
    split
    · exact hvec
    · split
      · exact hvec
      · rename_i hdayv
        exact ⟨hvec, ha, hb, hc, hd, he, fun _ => by simp only; omega,
          fun _ h2 => by simp at h2, hi1, hi5, by simp only [phase]; simp; omega⟩
  · have hf : s.is_first_record = false := by simpa using hf
    by_cases hs : s.is_second_record = true
    · have hph : phase s = 1 := by simp [phase, hf, hs]
      rw [hph] at hcount
      simp only [record_token, hf, hs, if_true, Bool.false_eq_true, if_false]
      split
      · exact hvec
      · rename_i hm
        exact ⟨hvec, ha, hb, hc, hd, he, fun _ => hday hf, fun _ _ => fun h => hm h.symm,
          hi1, hi5, by simp only [phase, hf]; simp; omega⟩
    · have hs : s.is_second_record = false := by simpa using hs
      simp only [record_token, hf, hs, Bool.false_eq_true, if_false]
      split
      · split
        · exact hvec
        · exact finish_number_ok y hy L ex0 vec0 s rem _ (by omega) hf hs h0
      · exact finish_number_ok y hy L ex0 vec0 s rem 0 (by omega) hf hs h0

theorem record_tokens_ok (y : Nat) (hy : y ≤ 65535) (L : List ruota_t) (ex0 : Nat → Nat)
    (vec0 : List Nat) :
    ∀ (toks : List (List Char)) (s : record_state),
      token_inv y L.length vec0 s toks.length →
      token_step_ok y L.length vec0 0 (record_tokens y L ex0 toks s) := by
  intro toks
  induction toks with
  | nil => intro s h; exact h
  | cons t rest ih =>
    intro s h
    have hstep := record_token_ok y hy L ex0 vec0 s rest.length t h
    rw [record_tokens]
    cases hres : record_token y L ex0 s t with
    | next s1 => rw [hres] at hstep; exact ih s1 hstep
    | break_exit s1 => rw [hres] at hstep; exact hstep
    | break_end s1 => rw [hres] at hstep; exact hstep
    | return_error v => rw [hres] at hstep; exact hstep
    | undefined => rw [hres] at hstep; exact hstep.elim

theorem record_init_inv (y n : Nat) (vec : List Nat) :
    token_inv y n vec (record_init vec) (2 + 5 * n + 1) :=
  ⟨appended_in_range_refl y vec, by simp [record_init], by simp [record_init],
    by simp [record_init], by simp [record_init], by simp [record_init],
    fun h => by simp [record_init] at h, fun h => by simp [record_init] at h,
    by simp [record_init], by simp [record_init],
    by simp only [record_init, phase]; simp; omega⟩

theorem process_record_ok (y : Nat) (hy : y ≤ 65535) (L : List ruota_t) (ex0 : Nat → Nat)
    (vec : List Nat) (record : List Char) :
    record_step_ok y vec (process_record y L ex0 vec record) := by
  simp only [process_record]
  split
  · exact appended_in_range_refl y vec
  · split
    · exact appended_in_range_refl y vec
    · rename_i hsize
      have hlen : (tokenizer record).length = 2 + 5 * L.length + 1 := by
        simpa using hsize
      have hrun := record_tokens_ok y hy L ex0 vec (tokenizer record) (record_init vec)
        (by rw [hlen]; exact record_init_inv y L.length vec)
      cases hres : record_tokens y L ex0 (tokenizer record) (record_init vec) with
      | next s1 => rw [hres] at hrun; exact hrun.vec
      | break_exit s1 => rw [hres] at hrun; exact hrun
      | break_end s1 => rw [hres] at hrun; exact hrun
      | return_error v => rw [hres] at hrun; exact hrun
      | undefined => rw [hres] at hrun; exact hrun.elim

theorem records_loop_ok (y : Nat) (hy : y ≤ 65535) (L : List ruota_t) (ex0 : Nat → Nat) :
    ∀ (records : List (List Char)) (vec : List Nat),
      ∃ ret v, records_loop y L ex0 records vec = some (ret, v) ∧
        appended_in_range y vec v := by
  intro records
  induction records with
  | nil => intro vec; exact ⟨0, vec, rfl, appended_in_range_refl y vec⟩
  | cons record rest ih =>
    intro vec
    have hstep := process_record_ok y hy L ex0 vec record
    rw [records_loop]
    cases hres : process_record y L ex0 vec record with
    | next_line v =>
      rw [hres] at hstep
      obtain ⟨ret, w, hw, hr⟩ := ih v
      exact ⟨ret, w, hw, appended_in_range_trans y vec v w hstep hr⟩
    | stop v => rw [hres] at hstep; exact ⟨0, v, rfl, hstep⟩
    | error v => rw [hres] at hstep; exact ⟨-1, v, rfl, hstep⟩
    | undefined => rw [hres] at hstep; exact hstep.elim

/-! ## The terminator line and the header -/

theorem process_record_end (y : Nat) (L : List ruota_t) (ex0 : Nat → Nat) (vec : List Nat)
    (record : List Char) (h : tokenizer record = ["END".toList]) :
    process_record y L ex0 vec record = record_step.stop vec := by
  simp only [process_record, h]
  rw [if_pos ⟨rfl, rfl⟩]

theorem process_record_wrong_arity (y : Nat) (L : List ruota_t) (ex0 : Nat → Nat)
    (vec : List Nat) (record : List Char)
    (h : (tokenizer record).length ≠ 2 + 5 * L.length + 1) :
    process_record y L ex0 vec record = record_step.stop vec := by
  simp only [process_record]
  split <;> rfl

theorem records_loop_end (y : Nat) (L : List ruota_t) (ex0 : Nat → Nat)
    (endline : List Char) (after : List (List Char))
    (hend : tokenizer endline = ["END".toList]) :
    ∀ (before : List (List Char)) (vec : List Nat),
      (∀ l ∈ before, record_well_formed L l) →
      records_loop y L ex0 (before ++ endline :: after) vec =
        some (0, vec ++
          (before.flatMap (fun l => line_draws y L (tokenizer l))).map (encode 0)) := by
  intro before
  induction before with
  | nil =>
    intro vec _
    simp only [List.nil_append, records_loop, process_record_end y L ex0 vec endline hend,
      List.flatMap_nil, List.map_nil, List.append_nil]
  | cons l rest ih =>
    intro vec hwf
    have hl := hwf l (List.mem_cons_self _ _)
    have hrest : ∀ l1 ∈ rest, record_well_formed L l1 :=
      fun l1 h1 => hwf l1 (List.mem_cons_of_mem _ h1)
    unfold record_well_formed at hl
    split at hl
    · rename_i day month toks htok
      obtain ⟨hlen, hday, hmonth, hnum⟩ := hl
      have hstep := process_record_well_formed y L ex0 vec l day month toks htok hlen hday
        hmonth hnum
      rw [List.cons_append, records_loop, hstep]
      simp only []
      rw [ih _ hrest, List.flatMap_cons, List.map_append, List.append_assoc, htok]
    · exact hl.elim

theorem header_loop_year_mismatch (y : Nat) (t : List Char) (rest : List (List Char))
    (v : Nat) (hparse : current_year t = some v) (hne : v ≠ y) :
    header_loop y (t :: rest) true [] = none := by
  have hbad : year_token_ok y t = false := by
    simp only [current_year] at hparse
    split at hparse
    · rename_i hconv
      simp only [Option.some.injEq] at hparse
      simp only [year_token_ok, hconv, Bool.true_eq_false, if_false, hparse, ne_eq, hne,
        not_false_eq_true, if_true]
    · exact absurd hparse (by simp)
  simp only [header_loop, hbad, if_true, Bool.false_eq_true, if_false]

/-! ## Control invariant of the token loop -/

theorem appended_located_refl (L : List ruota_t) (vec0 : List Nat) :
    appended_located L vec0 vec0 :=
  ⟨[], by simp, by simp⟩

theorem appended_located_snoc (L : List ruota_t) (vec0 v : List Nat) (r : Nat)
    (h : appended_located L vec0 v) (hr : ∃ ruota ∈ L, bits_ruota r = ruota.val) :
    appended_located L vec0 (v ++ [r]) := by
  obtain ⟨new, rfl, hnew⟩ := h
  refine ⟨new ++ [r], by simp, ?_⟩
  intro x hx
  rcases List.mem_append.mp hx with hx | hx
  · exact hnew x hx
  · simp only [List.mem_singleton] at hx
    subst hx
    exact hr

theorem appended_located_trans (L : List ruota_t) (vec0 v w : List Nat)
    (h1 : appended_located L vec0 v) (h2 : appended_located L v w) :
    appended_located L vec0 w := by
  obtain ⟨n1, rfl, hn1⟩ := h1
  obtain ⟨n2, rfl, hn2⟩ := h2
  refine ⟨n1 ++ n2, by simp, ?_⟩
  intro x hx
  rcases List.mem_append.mp hx with hx | hx
  · exact hn1 x hx
  · exact hn2 x hx

theorem bits_ruota_make_extraction (ex0 a b c d e y m dd : Nat) (r : ruota_t) :
    bits_ruota (make_extraction ex0 a b c d e r.val y m dd) = r.val := by
  have hr := ruota_val_le r
  rw [make_extraction_eq, bits_ruota_pack _ _ _ _ _ _ _ _ _ (Nat.mod_lt _ (by norm_num))]
  exact Nat.mod_eq_of_lt (by omega)

theorem finish_number_inv (y : Nat) (L : List ruota_t) (ex0 : Nat → Nat)
    (vec0 : List Nat) (s : record_state) (rem : Nat) (c_number : Nat)
    (hf : s.is_first_record = false) (hs : s.is_second_record = false)
    (h : loop_inv L vec0 s (rem + 1)) :
    token_step_inv L vec0 rem (finish_number y L ex0 (store_number s c_number)) := by
  obtain ⟨hvec, hi1, hi5, hidx, hcount⟩ := h
  have hph : phase s = 0 := by simp [phase, hf, hs]
  rw [hph] at hcount
  have hcases : s.current_number_iter = 1 ∨ s.current_number_iter = 2 ∨
      s.current_number_iter = 3 ∨ s.current_number_iter = 4 ∨
      s.current_number_iter = 5 := by omega
  rcases hcases with hi | hi | hi | hi | hi
  · simp only [store_number, hi, finish_number, Nat.reduceAdd, gt_iff_lt, Nat.reduceLT,
      if_false, token_step_inv]
    exact ⟨hvec, by simp, by simp, hidx, by simp only [phase, hf, hs]; simp; omega⟩
  · simp only [store_number, hi, finish_number, Nat.reduceAdd, gt_iff_lt, Nat.reduceLT,
      if_false, token_step_inv]
    exact ⟨hvec, by simp, by simp, hidx, by simp only [phase, hf, hs]; simp; omega⟩
  · simp only [store_number, hi, finish_number, Nat.reduceAdd, gt_iff_lt, Nat.reduceLT,
      if_false, token_step_inv]
    exact ⟨hvec, by simp, by simp, hidx, by simp only [phase, hf, hs]; simp; omega⟩
  · simp only [store_number, hi, finish_number, Nat.reduceAdd, gt_iff_lt, Nat.reduceLT,
      if_false, token_step_inv]
    exact ⟨hvec, by simp, by simp, hidx, by simp only [phase, hf, hs]; simp; omega⟩
  · have hlt : s.current_r_iter < L.length := by omega
    have hr : L[s.current_r_iter]? = some L[s.current_r_iter] := List.getElem?_eq_getElem hlt
    simp only [store_number, hi, finish_number, Nat.reduceAdd, gt_iff_lt, Nat.reduceLT,
      if_true, hr]
    by_cases hz : s.a_num = 0
    · simp only [hz, ne_eq, not_true_eq_false, if_false]
      split
      · exact hvec
      · rename_i hne
        exact ⟨hvec, by simp, by simp, fun _ => by simp only; omega,
          by simp only [phase, hf, hs]; simp; omega⟩
    · simp only [hz, ne_eq, not_false_eq_true, if_true]
      have hnew := appended_located_snoc L vec0 s.extraction_vec _ hvec
        ⟨L[s.current_r_iter], List.getElem_mem hlt,
          bits_ruota_make_extraction (ex0 s.extraction_vec.length) s.a_num s.b_num s.c_num
            s.d_num c_number y s.current_month.val s.current_day L[s.current_r_iter]⟩
      split
      · exact hnew
      · rename_i hne
        exact ⟨hnew, by simp, by simp, fun _ => by simp only; omega,
          by simp only [phase, hf, hs]; simp; omega⟩

theorem record_token_inv (y : Nat) (L : List ruota_t) (ex0 : Nat → Nat)
    (vec0 : List Nat) (s : record_state) (rem : Nat) (t : List Char)
    (h : loop_inv L vec0 s (rem + 1)) :
    token_step_inv L vec0 rem (record_token y L ex0 s t) := by
  have h0 := h
  obtain ⟨hvec, hi1, hi5, hidx, hcount⟩ := h
  by_cases hf : s.is_first_record = true
  · have hph : phase s = 2 := by simp [phase, hf]
    rw [hph] at hcount
    simp only [record_token, hf, if_true]
    split
    · exact hvec
    · split
      · exact hvec
      · exact ⟨hvec, hi1, hi5, hidx, by simp only [phase]; simp; omega⟩
  · have hf : s.is_first_record = false := by simpa using hf
    by_cases hs : s.is_second_record = true
    · have hph : phase s = 1 := by simp [phase, hf, hs]
      rw [hph] at hcount
      simp only [record_token, hf, hs, if_true, Bool.false_eq_true, if_false]
      split
      · exact hvec
      · exact ⟨hvec, hi1, hi5, hidx, by simp only [phase, hf]; simp; omega⟩
    · have hs : s.is_second_record = false := by simpa using hs
      simp only [record_token, hf, hs, Bool.false_eq_true, if_false]
      split
      · split
        · exact hvec
        · exact finish_number_inv y L ex0 vec0 s rem _ hf hs h0
      · exact finish_number_inv y L ex0 vec0 s rem 0 hf hs h0

theorem record_tokens_inv (y : Nat) (L : List ruota_t) (ex0 : Nat → Nat)
    (vec0 : List Nat) :
    ∀ (toks : List (List Char)) (s : record_state),
      loop_inv L vec0 s toks.length →
      token_step_inv L vec0 0 (record_tokens y L ex0 toks s) := by
  intro toks
  induction toks with
  | nil => intro s h; exact h
  | cons t rest ih =>
    intro s h
    have hstep := record_token_inv y L ex0 vec0 s rest.length t h
    rw [record_tokens]
    cases hres : record_token y L ex0 s t with
    | next s1 => rw [hres] at hstep; exact ih s1 hstep
    | break_exit s1 => rw [hres] at hstep; exact hstep
    | break_end s1 => rw [hres] at hstep; exact hstep
    | return_error v => rw [hres] at hstep; exact hstep
    | undefined => rw [hres] at hstep; exact hstep.elim

theorem record_init_loop_inv (L : List ruota_t) (vec : List Nat) :
    loop_inv L vec (record_init vec) (2 + 5 * L.length + 1) :=
  ⟨appended_located_refl L vec, by simp [record_init], by simp [record_init],
    fun h => by simp only [record_init]; omega,
    by simp only [record_init, phase]; simp; omega⟩

theorem process_record_located (y : Nat) (L : List ruota_t) (ex0 : Nat → Nat)
    (vec : List Nat) (record : List Char) :
    record_step_located L vec (process_record y L ex0 vec record) := by
  simp only [process_record]
  split
  · exact appended_located_refl L vec
  · split
    · exact appended_located_refl L vec
    · rename_i hsize
      have hlen : (tokenizer record).length = 2 + 5 * L.length + 1 := by
        simpa using hsize
      have hrun := record_tokens_inv y L ex0 vec (tokenizer record) (record_init vec)
        (by rw [hlen]; exact record_init_loop_inv L vec)
      cases hres : record_tokens y L ex0 (tokenizer record) (record_init vec) with
      | next s1 => rw [hres] at hrun; exact hrun.vec
      | break_exit s1 => rw [hres] at hrun; exact hrun
      | break_end s1 => rw [hres] at hrun; exact hrun
      | return_error v => rw [hres] at hrun; exact hrun
      | undefined => rw [hres] at hrun; exact hrun.elim

theorem records_loop_located (y : Nat) (L : List ruota_t) (ex0 : Nat → Nat) :
    ∀ (records : List (List Char)) (vec : List Nat),
      ∃ ret v, records_loop y L ex0 records vec = some (ret, v) ∧
        appended_located L vec v := by
  intro records
  induction records with
  | nil => intro vec; exact ⟨0, vec, rfl, appended_located_refl L vec⟩
  | cons record rest ih =>
    intro vec
    have hstep := process_record_located y L ex0 vec record
    rw [records_loop]
    cases hres : process_record y L ex0 vec record with
    | next_line v =>
      rw [hres] at hstep
      obtain ⟨ret, w, hw, hr⟩ := ih v
      exact ⟨ret, w, hw, appended_located_trans L vec v w hstep hr⟩
    | stop v => rw [hres] at hstep; exact ⟨0, v, rfl, hstep⟩
    | error v => rw [hres] at hstep; exact ⟨-1, v, rfl, hstep⟩
    | undefined => rw [hres] at hstep; exact hstep.elim

theorem header_loop_known (y : Nat) :
    ∀ (toks : List (List Char)) (is_first : Bool) (acc L : List ruota_t),
      (∀ r ∈ acc, r ≠ ruota_t.UNKNOWN) → header_loop y toks is_first acc = some L →
      ∀ r ∈ L, r ≠ ruota_t.UNKNOWN := by
  intro toks
  induction toks with
  | nil =>
    intro is_first acc L hacc h
    simp only [header_loop, Option.some.injEq] at h
    subst h
    exact hacc
  | cons t rest ih =>
    intro is_first acc L hacc h
    rw [header_loop] at h
    split at h
    · split at h
      · exact ih false acc L hacc h
      · exact absurd h (by simp)
    · simp only at h
      split at h
      · rename_i hne
        refine ih false _ L ?_ h
        intro r hr
        rcases List.mem_append.mp hr with hr | hr
        · exact hacc r hr
        · simp only [List.mem_singleton] at hr
          subst hr
          exact hne
      · split at h
        · exact ih false acc L hacc h
        · exact absurd h (by simp)

theorem ruota_val_known (r : ruota_t) (h : r ≠ ruota_t.UNKNOWN) : r.val ≤ 11 := by
  cases r <;> simp [ruota_t.val] at h ⊢

/-! ## Verifier lemmas -/

theorem current_ex_eq_iff (b0 b1 b2 b3 b4 b5 b6 b7 e : Nat) (h0 : b0 < 256)
    (h1 : b1 < 256) (h2 : b2 < 256) (h3 : b3 < 256) (h4 : b4 < 256) (h5 : b5 < 256)
    (h6 : b6 < 256) (h7 : b7 < 256) (he : e < 2 ^ 64) :
    current_ex b0 b1 b2 b3 b4 b5 b6 b7 = e ↔
      [b0, b1, b2, b3, b4, b5, b6, b7] = value_64bit e := by
  constructor
  · intro h
    have hc := current_ex_eq b0 b1 b2 b3 b4 b5 b6 b7
    have hv := value_64bit_eq e
    norm_num at hc hv he
    rw [hv]
    rw [hc] at h
    simp only [List.cons.injEq, and_true]
    refine ⟨?_, ?_, ?_, ?_, ?_, ?_, ?_, ?_⟩ <;> omega
  · intro h
    rw [value_64bit_eq] at h
    simp only [List.cons.injEq, and_true] at h
    obtain ⟨g0, g1, g2, g3, g4, g5, g6, g7⟩ := h
    rw [g0, g1, g2, g3, g4, g5, g6, g7]
    exact current_ex_value_64bit e he
theorem verify_file_db_eq_zero_iff (seq : List Nat) (file : Option (List Nat)) :
    verify_file_db seq file = 0 ↔ verify_file_db_run seq file = verify_result.ok := by
  simp only [verify_file_db]
  cases verify_file_db_run seq file <;> simp

theorem verify_file_db_ne_zero (seq : List Nat) (file : Option (List Nat))
    (h : verify_file_db seq file ≠ 0) : verify_file_db seq file = -1 := by
  simp only [verify_file_db] at h ⊢
  generalize verify_file_db_run seq file = r at h ⊢
  cases r <;> simp at h ⊢

theorem verify_loop_ok_iff :
    ∀ (seq : List Nat) (kounter : Nat) (file : List Nat), (∀ r ∈ seq, r < 2 ^ 64) →
      (∀ x ∈ file, x < 256) →
      (verify_loop seq kounter file = verify_result.ok ↔
        8 * seq.length ≤ file.length ∧ file.take (8 * seq.length) = save_loop seq) := by
  intro seq
  induction seq with
  | nil => intro kounter file _ _; simp [verify_loop, save_loop]
  | cons e rest ih =>
    intro kounter file hseq hfile
    have he : e < 2 ^ 64 := hseq e (List.mem_cons_self _ _)
    have hrest : ∀ r ∈ rest, r < 2 ^ 64 := fun r hr => hseq r (List.mem_cons_of_mem _ hr)
    have hshort : ∀ l : List Nat, l.length < 8 →
        ¬ (8 * (e :: rest).length ≤ l.length ∧
          l.take (8 * (e :: rest).length) = save_loop (e :: rest)) := by
      intro l hl h
      have := h.1
      simp only [List.length_cons] at this
      omega
    obtain _ | ⟨b0, _ | ⟨b1, _ | ⟨b2, _ | ⟨b3, _ | ⟨b4, _ | ⟨b5, _ | ⟨b6, _ | ⟨b7, file1⟩⟩⟩⟩⟩⟩⟩⟩ :=
      file
    · simp only [verify_loop, reduceCtorEq, false_iff]; exact hshort _ (by simp)
    · simp only [verify_loop, reduceCtorEq, false_iff]; exact hshort _ (by simp)
    · simp only [verify_loop, reduceCtorEq, false_iff]; exact hshort _ (by simp)
    · simp only [verify_loop, reduceCtorEq, false_iff]; exact hshort _ (by simp)
    · simp only [verify_loop, reduceCtorEq, false_iff]; exact hshort _ (by simp)
    · simp only [verify_loop, reduceCtorEq, false_iff]; exact hshort _ (by simp)
    · simp only [verify_loop, reduceCtorEq, false_iff]; exact hshort _ (by simp)
    · simp only [verify_loop, reduceCtorEq, false_iff]; exact hshort _ (by simp)
    · have hb : ∀ x ∈ [b0, b1, b2, b3, b4, b5, b6, b7], x < 256 :=
        fun x hx => hfile x (by simp at hx ⊢; tauto)
      have hfile1 : ∀ x ∈ file1, x < 256 := fun x hx => hfile x (by simp [hx])
      have hiff := current_ex_eq_iff b0 b1 b2 b3 b4 b5 b6 b7 e (hb b0 (by simp))
        (hb b1 (by simp)) (hb b2 (by simp)) (hb b3 (by simp)) (hb b4 (by simp))
        (hb b5 (by simp)) (hb b6 (by simp)) (hb b7 (by simp)) he
      have hlen8 : (value_64bit e).length = 8 := rfl
      have htake : (b0 :: b1 :: b2 :: b3 :: b4 :: b5 :: b6 :: b7 :: file1).take
          (8 * (e :: rest).length) =
          [b0, b1, b2, b3, b4, b5, b6, b7] ++ file1.take (8 * rest.length) := by
        have : 8 * (e :: rest).length = 8 * rest.length + 1 + 1 + 1 + 1 + 1 + 1 + 1 + 1 := by
          simp only [List.length_cons]; omega
        rw [this]
        simp only [List.take_succ_cons, List.cons_append, List.nil_append]
      rw [htake]
      simp only [verify_loop, save_loop]
      by_cases hcur : current_ex b0 b1 b2 b3 b4 b5 b6 b7 = e
      · have hbytes := hiff.1 hcur
        simp only [hcur, ne_eq, not_true_eq_false, if_false]
        rw [ih (kounter + 1) file1 hrest hfile1, ← hbytes]
        simp only [List.length_cons, List.append_cancel_left_eq]
        constructor
        · rintro ⟨h1, h2⟩; exact ⟨by omega, h2⟩
        · rintro ⟨h1, h2⟩; exact ⟨by omega, h2⟩
      · simp only [ne_eq, hcur, not_false_eq_true, if_true, reduceCtorEq, false_iff]
        rintro ⟨_, h2⟩
        apply hcur
        apply hiff.2
        have h3 := congrArg (List.take 8) h2
        rw [List.take_left' (by rfl), List.take_left' hlen8] at h3
        exact h3

theorem verify_loop_corrupted (b : Nat) (hb : b < 256) :
    ∀ (seq : List Nat) (kounter k : Nat), (∀ r ∈ seq, r < 2 ^ 64) →
      k < 8 * seq.length → (save_loop seq)[k]? ≠ some b →
      ∃ expected found,
        verify_loop seq kounter ((save_loop seq).set k b) =
          verify_result.inconsistent_extraction (kounter + k / 8 + 1) expected found := by
  intro seq
  induction seq with
  | nil => intro kounter k _ hk; simp at hk
  | cons e rest ih =>
    intro kounter k hseq hk hne
    have he : e < 2 ^ 64 := hseq e (List.mem_cons_self _ _)
    have hrest : ∀ r ∈ rest, r < 2 ^ 64 := fun r hr => hseq r (List.mem_cons_of_mem _ hr)
    have hlen8 : (value_64bit e).length = 8 := rfl
    by_cases hk8 : k < 8
    · have hk0 : k / 8 = 0 := by omega
      simp only [hk0, Nat.add_zero]
      simp only [save_loop] at hne ⊢
      rw [List.set_append_left k b (by rw [hlen8]; exact hk8)]
      rw [List.getElem?_append_left (by rw [hlen8]; exact hk8)] at hne
      rw [value_64bit_eq] at hne ⊢
      have hbad : ∀ b0 b1 b2 b3 b4 b5 b6 b7 : Nat,
          current_ex b0 b1 b2 b3 b4 b5 b6 b7 ≠ e →
          verify_loop (e :: rest) kounter
            (b0 :: b1 :: b2 :: b3 :: b4 :: b5 :: b6 :: b7 :: save_loop rest) =
            verify_result.inconsistent_extraction (kounter + 1) e
              (current_ex b0 b1 b2 b3 b4 b5 b6 b7) := by
        intro b0 b1 b2 b3 b4 b5 b6 b7 h
        simp only [verify_loop, ne_eq, h, not_false_eq_true, if_true]
      have hm : ∀ n : Nat, n % 256 < 256 := fun n => Nat.mod_lt _ (by norm_num)
      interval_cases k
      all_goals
        simp only [List.set_cons_zero, List.set_cons_succ, List.cons_append, List.nil_append]
        simp only [List.getElem?_cons_zero, List.getElem?_cons_succ, ne_eq,
          Option.some.injEq] at hne
        refine ⟨e, _, hbad _ _ _ _ _ _ _ _ ?_⟩
        · intro hcur
          have hiff := (current_ex_eq_iff _ _ _ _ _ _ _ _ e (by first | exact hb | exact hm _)
            (by first | exact hb | exact hm _) (by first | exact hb | exact hm _)
            (by first | exact hb | exact hm _) (by first | exact hb | exact hm _)
            (by first | exact hb | exact hm _) (by first | exact hb | exact hm _)
            (by first | exact hb | exact hm _) he).1 hcur
          rw [value_64bit_eq] at hiff
          simp only [List.cons.injEq, and_true] at hiff
          apply hne
          tauto
    · have hk8 : 8 ≤ k := by omega
      simp only [save_loop] at hne ⊢
      rw [List.set_append_right k b (by rw [hlen8]; exact hk8), hlen8]
      rw [List.getElem?_append_right (by rw [hlen8]; exact hk8), hlen8] at hne
      obtain ⟨expected, found, hrun⟩ := ih (kounter + 1) (k - 8) hrest
        (by simp only [List.length_cons] at hk; omega) hne
      refine ⟨expected, found, ?_⟩
      rw [value_64bit_eq]
      simp only [List.cons_append, List.nil_append, verify_loop,
        current_ex_value_64bit e he, ne_eq, not_true_eq_false, if_false]
      rw [hrun]
      have : kounter + 1 + (k - 8) / 8 + 1 = kounter + k / 8 + 1 := by omega
      rw [this]

/-! ## Bit-field isolation lemmas -/

theorem encode_eq_pack (ex0 : Nat) (d : bits_t) (h : valid_draw d) :
    encode ex0 d = pack d.ruota d.a d.b d.c d.d d.e d.day d.month d.year := by
  obtain ⟨h1, h2, h3, h4, h5, h6, h7, h8, h9, h10, h11⟩ := h
  simp only [encode, make_extraction_eq]
  rw [Nat.mod_eq_of_lt (by omega : d.ruota < 16), Nat.mod_eq_of_lt (by omega : d.a < 128),
    Nat.mod_eq_of_lt (by omega : d.b < 128), Nat.mod_eq_of_lt (by omega : d.c < 128),
    Nat.mod_eq_of_lt (by omega : d.d < 128), Nat.mod_eq_of_lt (by omega : d.e < 128),
    Nat.mod_eq_of_lt (by omega : d.day < 32), Nat.mod_eq_of_lt (by omega : d.month < 16),
    Nat.mod_eq_of_lt (by omega : d.year < 65536)]

theorem testBit_frame (x y off w : Nat) (hlo : x % 2 ^ off = y % 2 ^ off)
    (hhi : x / 2 ^ (off + w) = y / 2 ^ (off + w)) (i : Nat)
    (hi : i < off ∨ off + w ≤ i) : x.testBit i = y.testBit i := by
  rcases hi with hi | hi
  · have hx := Nat.testBit_mod_two_pow x off i
    have hy := Nat.testBit_mod_two_pow y off i
    simp only [hi, decide_True, Bool.true_and] at hx hy
    rw [← hx, ← hy, hlo]
  · have hx := Nat.testBit_shiftRight (i := off + w) (j := i - (off + w)) x
    have hy := Nat.testBit_shiftRight (i := off + w) (j := i - (off + w)) y
    rw [Nat.shiftRight_eq_div_pow, Nat.add_sub_cancel' hi] at hx hy
    rw [← hx, ← hy, hhi]

theorem pack_frame (d : bits_t) (f : bit_field) (v : Nat) (hd : valid_draw d)
    (hv : valid_draw (d.set f v)) :
    pack d.ruota d.a d.b d.c d.d d.e d.day d.month d.year % 2 ^ f.offset =
        pack (d.set f v).ruota (d.set f v).a (d.set f v).b (d.set f v).c (d.set f v).d
          (d.set f v).e (d.set f v).day (d.set f v).month (d.set f v).year % 2 ^ f.offset ∧
      pack d.ruota d.a d.b d.c d.d d.e d.day d.month d.year / 2 ^ (f.offset + f.width) =
        pack (d.set f v).ruota (d.set f v).a (d.set f v).b (d.set f v).c (d.set f v).d
          (d.set f v).e (d.set f v).day (d.set f v).month (d.set f v).year /
          2 ^ (f.offset + f.width) := by
  obtain ⟨h1, h2, h3, h4, h5, h6, h7, h8, h9, h10, h11⟩ := hd
  cases f <;>
    simp only [bits_t.set, valid_draw] at hv <;>
    obtain ⟨g1, g2, g3, g4, g5, g6, g7, g8, g9, g10, g11⟩ := hv <;>
    simp only [bits_t.set, bit_field.offset, bit_field.width, pack] <;>
    norm_num <;> omega

/-! ## Vocabulary lemmas -/

theorem toupper_of_eq_ignore_case (c1 c2 : Char) (h : eq_ignore_case c1 c2)
    (h2 : 65 ≤ c2.toNat ∧ c2.toNat ≤ 90) : toupper c1 = c2 := by
  rcases h with rfl | ⟨_, _, h3⟩ | ⟨_, _, h3⟩
  · simp only [toupper]
    rw [if_neg (by omega)]
  · omega
  · simp only [toupper]
    rw [if_pos (by omega), h3, Nat.add_sub_cancel, Char.ofNat_toNat]

theorem my_str_toupper_of_case_variant :
    ∀ (s t : List Char), case_variant s t → (∀ c ∈ t, 65 ≤ c.toNat ∧ c.toNat ≤ 90) →
      my_str_toupper s = t := by
  intro s
  induction s with
  | nil =>
    intro t h _
    obtain ⟨hlen, _⟩ := h
    cases t with
    | nil => rfl
    | cons d t => simp at hlen
  | cons c s ih =>
    intro t h hup
    obtain ⟨hlen, hall⟩ := h
    cases t with
    | nil => simp at hlen
    | cons d t =>
      have hc : eq_ignore_case c d := hall (c, d) (by simp)
      have hrest : case_variant s t :=
        ⟨by simpa using hlen, fun p hp => hall p (by simp [hp])⟩
      simp only [my_str_toupper, List.map_cons]
      rw [toupper_of_eq_ignore_case c d hc (hup d (by simp))]
      have := ih t hrest (fun x hx => hup x (by simp [hx]))
      simp only [my_str_toupper] at this
      rw [this]

theorem convert_ruota_to_string_upper (l : ruota_t) :
    ∀ c ∈ convert_ruota_to_string l, 65 ≤ c.toNat ∧ c.toNat ≤ 90 := by
  cases l <;> decide

theorem convert_mese_to_string_upper (m : mese_t) :
    ∀ c ∈ convert_mese_to_string m, 65 ≤ c.toNat ∧ c.toNat ≤ 90 := by
  cases m <;> decide

theorem convert_string_to_ruota_variant (l : ruota_t) (s : List Char)
    (h : case_variant s (convert_ruota_to_string l)) : convert_string_to_ruota s = l := by
  have hup := my_str_toupper_of_case_variant s _ h (convert_ruota_to_string_upper l)
  simp only [convert_string_to_ruota, hup]
  cases l <;> decide

theorem convert_string_to_mese_variant (m : mese_t) (s : List Char)
    (h : case_variant s (convert_mese_to_string m)) : convert_string_to_mese s = m := by
  have hup := my_str_toupper_of_case_variant s _ h (convert_mese_to_string_upper m)
  simp only [convert_string_to_mese, hup]
  cases m <;> decide

/-! ## Header lemmas -/

theorem year_token_ok_iff (y : Nat) (t : List Char) :
    year_token_ok y t = true ↔ current_year t = some y := by
  simp only [year_token_ok, current_year]
  by_cases hc : (strtoul (c_str t)).2 = true
  · by_cases hv : (strtoul (c_str t)).1 % 2 ^ 32 = y <;> simp [hc, hv]
  · simp [hc]

theorem header_loop_rest (y : Nat) :
    ∀ (rest : List (List Char)) (acc : List ruota_t),
      header_loop y rest false acc =
        if ∀ t1 ∈ rest, recognised_location t1 ∨ current_year t1 = some y then
          some (acc ++ header_locations rest)
        else none := by
  intro rest
  induction rest with
  | nil => intro acc; simp [header_loop, header_locations]
  | cons t rest ih =>
    intro acc
    rw [header_loop]
    simp only [Bool.false_eq_true, if_false]
    by_cases hr : recognised_location t
    · have hr1 : convert_string_to_ruota (c_str t) ≠ ruota_t.UNKNOWN := hr
      rw [if_pos hr1, ih]
      simp only [List.mem_cons, forall_eq_or_imp, hr, true_or, true_and, header_locations,
        List.filter_cons, decide_True, if_true, List.map_cons, List.append_assoc,
        List.singleton_append]
    · have hr1 : ¬ convert_string_to_ruota (c_str t) ≠ ruota_t.UNKNOWN := hr
      rw [if_neg hr1]
      by_cases hy : current_year t = some y
      · rw [if_pos ((year_token_ok_iff y t).2 hy), ih]
        simp only [List.mem_cons, forall_eq_or_imp, hy, or_true, true_and, header_locations,
          List.filter_cons, hr, decide_False, Bool.false_eq_true, if_false]
      · have hno : ¬ year_token_ok y t = true := fun h => hy ((year_token_ok_iff y t).1 h)
        rw [if_neg hno]
        simp only [List.mem_cons, forall_eq_or_imp, hr, hy, or_self, false_and, if_false]

theorem parse_header_eq (y : Nat) (header t : List Char) (rest : List (List Char))
    (htok : tokenizer header = t :: rest) :
    parse_header y header =
      if header_accepted y t rest then some (header_locations rest) else none := by
  simp only [parse_header, htok, header_loop, if_true, header_accepted]
  by_cases hy : current_year t = some y
  · rw [if_pos ((year_token_ok_iff y t).2 hy), header_loop_rest]
    simp only [hy, true_and, List.nil_append]
  · have hno : ¬ year_token_ok y t = true := fun h => hy ((year_token_ok_iff y t).1 h)
    rw [if_neg hno]
    simp only [hy, false_and, if_false]

theorem parse_header_listed (y : Nat) (header : List Char) (L : List ruota_t)
    (h : parse_header y header = some L) :
    ∀ ruota ∈ L, ruota ≠ ruota_t.UNKNOWN ∧
      ∃ t ∈ (tokenizer header).tail, convert_string_to_ruota (c_str t) = ruota := by
  intro ruota hmem
  refine ⟨header_loop_known y _ true [] L (by simp) h ruota hmem, ?_⟩
  cases htok : tokenizer header with
  | nil =>
    simp only [parse_header, htok, header_loop, Option.some.injEq] at h
    subst h
    simp at hmem
  | cons t rest =>
    rw [parse_header_eq y header t rest htok] at h
    split at h
    · simp only [Option.some.injEq] at h
      subst h
      simp only [header_locations, List.mem_map, List.mem_filter] at hmem
      obtain ⟨t1, ⟨ht1, _⟩, heq⟩ := hmem
      exact ⟨t1, ht1, heq⟩
    · exact absurd h (by simp)

/-! ## Record lines that follow well-formed lines -/

theorem records_loop_skip_well_formed (y : Nat) (L : List ruota_t) (ex0 : Nat → Nat)
    (rest : List (List Char)) :
    ∀ (before : List (List Char)) (vec : List Nat),
      (∀ l ∈ before, record_well_formed L l) →
      records_loop y L ex0 (before ++ rest) vec =
        records_loop y L ex0 rest
          (vec ++ (before.flatMap (fun l => line_draws y L (tokenizer l))).map (encode 0)) := by
  intro before
  induction before with
  | nil => intro vec _; simp
  | cons l more ih =>
    intro vec hwf
    have hl := hwf l (List.mem_cons_self _ _)
    have hmore : ∀ l1 ∈ more, record_well_formed L l1 :=
      fun l1 h1 => hwf l1 (List.mem_cons_of_mem _ h1)
    unfold record_well_formed at hl
    split at hl
    · rename_i day month toks htok
      obtain ⟨hlen, hday, hmonth, hnum⟩ := hl
      have hstep := process_record_well_formed y L ex0 vec l day month toks htok hlen hday
        hmonth hnum
      rw [List.cons_append, records_loop, hstep]
      simp only []
      rw [ih _ hmore, List.flatMap_cons, List.map_append, List.append_assoc, htok]
    · exact hl.elim

theorem records_loop_error (y : Nat) (L : List ruota_t) (ex0 : Nat → Nat)
    (record : List Char) (after : List (List Char)) (vec v : List Nat)
    (h : process_record y L ex0 vec record = record_step.error v) :
    records_loop y L ex0 (record :: after) vec = some (-1, v) := by
  rw [records_loop, h]

theorem process_record_invalid_day (y : Nat) (L : List ruota_t) (ex0 : Nat → Nat)
    (vec : List Nat) (record t : List Char) (rest : List (List Char))
    (htok : tokenizer record = t :: rest) (hlen : rest.length = 1 + 5 * L.length + 1)
    (hend : "END".toList ≠ c_str t) (hday : ¬ day_token_valid t) :
    process_record y L ex0 vec record = record_step.error vec := by
  have hsize : ¬ ((t :: rest).length = 1 ∧ (t :: rest).head? = some "END".toList) := by
    simp only [List.length_cons]; omega
  have hsize2 : ¬ ((t :: rest).length ≠ 2 + 5 * L.length + 1) := by
    simp only [List.length_cons]; omega
  have hbad : 0 = convert_number_non_zero (c_str t) ∨
      (convert_number_non_zero (c_str t) < 1 ∨ convert_number_non_zero (c_str t) > 31) := by
    simp only [day_token_valid] at hday
    omega
  simp only [process_record, htok]
  rw [if_neg hsize, if_neg hsize2, record_tokens]
  simp only [record_token, record_init, if_true, hend, if_false, hbad]

theorem process_record_invalid_month (y : Nat) (L : List ruota_t) (ex0 : Nat → Nat)
    (vec : List Nat) (record day month : List Char) (rest : List (List Char))
    (htok : tokenizer record = day :: month :: rest)
    (hlen : rest.length = 5 * L.length + 1) (hday : day_token_valid day)
    (hmonth : ¬ month_token_valid month) :
    process_record y L ex0 vec record = record_step.error vec := by
  have hsize : ¬ ((day :: month :: rest).length = 1 ∧
      (day :: month :: rest).head? = some "END".toList) := by
    simp only [List.length_cons]; omega
  have hsize2 : ¬ ((day :: month :: rest).length ≠ 2 + 5 * L.length + 1) := by
    simp only [List.length_cons]; omega
  have hnull : mese_t.NULL_MESE = convert_string_to_mese (c_str month) := by
    simp only [month_token_valid, ne_eq, not_not] at hmonth
    exact hmonth.symm
  simp only [process_record, htok]
  rw [if_neg hsize, if_neg hsize2]
  rw [record_tokens, record_token_day y L ex0 _ day rfl hday]
  simp only []
  rw [record_tokens]
  simp only [record_token, record_init, Bool.false_eq_true, if_false, if_true, hnull]

theorem finish_number_next (y : Nat) (L : List ruota_t) (ex0 : Nat → Nat)
    (vec0 : List Nat) (s : record_state) (rem : Nat) (c_number : Nat)
    (hf : s.is_first_record = false) (hs : s.is_second_record = false)
    (h : loop_inv L vec0 s (rem + 1)) (hrem : 2 ≤ rem) :
    ∃ s1, finish_number y L ex0 (store_number s c_number) = token_step.next s1 ∧
      s1.is_first_record = false ∧ s1.is_second_record = false := by
  obtain ⟨hvec, hi1, hi5, hidx, hcount⟩ := h
  have hph : phase s = 0 := by simp [phase, hf, hs]
  rw [hph] at hcount
  have hcases : s.current_number_iter = 1 ∨ s.current_number_iter = 2 ∨
      s.current_number_iter = 3 ∨ s.current_number_iter = 4 ∨
      s.current_number_iter = 5 := by omega
  rcases hcases with hi | hi | hi | hi | hi
  · simp only [store_number, hi, finish_number, Nat.reduceAdd, gt_iff_lt, Nat.reduceLT,
      if_false]
    exact ⟨_, rfl, hf, hs⟩
  · simp only [store_number, hi, finish_number, Nat.reduceAdd, gt_iff_lt, Nat.reduceLT,
      if_false]
    exact ⟨_, rfl, hf, hs⟩
  · simp only [store_number, hi, finish_number, Nat.reduceAdd, gt_iff_lt, Nat.reduceLT,
      if_false]
    exact ⟨_, rfl, hf, hs⟩
  · simp only [store_number, hi, finish_number, Nat.reduceAdd, gt_iff_lt, Nat.reduceLT,
      if_false]
    exact ⟨_, rfl, hf, hs⟩
  · have hlt : s.current_r_iter < L.length := by omega
    have hnl : ¬ s.current_r_iter + 1 = L.length := by omega
    have hr : L[s.current_r_iter]? = some L[s.current_r_iter] := List.getElem?_eq_getElem hlt
    simp only [store_number, hi, finish_number, Nat.reduceAdd, gt_iff_lt, Nat.reduceLT,
      if_true, hr, hnl, if_false]
    by_cases hz : s.a_num = 0
    · simp only [hz, ne_eq, not_true_eq_false, if_false]
      exact ⟨_, rfl, hf, hs⟩
    · simp only [hz, ne_eq, not_false_eq_true, if_true]
      exact ⟨_, rfl, hf, hs⟩

theorem record_tokens_bad_number (y : Nat) (L : List ruota_t) (ex0 : Nat → Nat)
    (vec0 : List Nat) (suf : List (List Char)) (hsuf : 1 ≤ suf.length) :
    ∀ (l : List (List Char)) (s : record_state),
      loop_inv L vec0 s (l.length + suf.length) → s.is_first_record = false →
      s.is_second_record = false →
      (∃ t ∈ l, "--".toList ≠ c_str t ∧ ¬ number_token_valid t) →
      ∃ v, record_tokens y L ex0 (l ++ suf) s = token_step.return_error v := by
  intro l
  induction l with
  | nil => intro s _ _ _ h; simp at h
  | cons t l ih =>
    intro s hinv hf hs hbad
    rw [List.cons_append, record_tokens]
    by_cases ht : "--".toList ≠ c_str t ∧ ¬ number_token_valid t
    · obtain ⟨hne, hnv⟩ := ht
      have hcond : 0 = convert_number_non_zero (c_str t) ∨
          (convert_number_non_zero (c_str t) < 1 ∨ convert_number_non_zero (c_str t) > 90) := by
        simp only [number_token_valid] at hnv
        omega
      refine ⟨s.extraction_vec, ?_⟩
      simp only [record_token, hf, hs, Bool.false_eq_true, if_false, hne, ne_eq,
        not_false_eq_true, if_true, hcond]
    · have hin : ∃ t1 ∈ l, "--".toList ≠ c_str t1 ∧ ¬ number_token_valid t1 := by
        obtain ⟨t1, ht1, hb1⟩ := hbad
        rcases List.mem_cons.mp ht1 with rfl | ht1
        · exact absurd hb1 ht
        · exact ⟨t1, ht1, hb1⟩
      have hl : 1 ≤ l.length := by
        obtain ⟨t1, ht1, _⟩ := hin
        exact List.length_pos_of_mem ht1
      have hinv1 : loop_inv L vec0 s (l.length + suf.length + 1) := by
        simpa [Nat.add_right_comm] using hinv
      have hstep := record_token_inv y L ex0 vec0 s (l.length + suf.length) t hinv1
      have hnext : ∃ s1, record_token y L ex0 s t = token_step.next s1 ∧
          s1.is_first_record = false ∧ s1.is_second_record = false := by
        simp only [record_token, hf, hs, Bool.false_eq_true, if_false]
        by_cases hp : "--".toList ≠ c_str t
        · have hv : number_token_valid t := by
            by_contra hv
            exact ht ⟨hp, hv⟩
          have hcond : ¬ (0 = convert_number_non_zero (c_str t) ∨
              (convert_number_non_zero (c_str t) < 1 ∨
                convert_number_non_zero (c_str t) > 90)) := by
            simp only [number_token_valid] at hv
            omega
          rw [if_pos hp, if_neg hcond]
          exact finish_number_next y L ex0 vec0 s _ _ hf hs hinv1 (by omega)
        · rw [if_neg hp]
          exact finish_number_next y L ex0 vec0 s _ _ hf hs hinv1 (by omega)
      obtain ⟨s1, hrun, hf1, hs1⟩ := hnext
      rw [hrun] at hstep ⊢
      exact ih s1 hstep hf1 hs1 hin

theorem process_record_invalid_number (y : Nat) (L : List ruota_t)
    (ex0 : Nat → Nat) (vec : List Nat) (record day month : List Char)
    (rest : List (List Char)) (htok : tokenizer record = day :: month :: rest)
    (hlen : rest.length = 5 * L.length + 1) (hday : day_token_valid day)
    (hmonth : month_token_valid month)
    (hbad : ∃ t ∈ rest.take (5 * L.length),
      "--".toList ≠ c_str t ∧ ¬ number_token_valid t) :
    ∃ v, process_record y L ex0 vec record = record_step.error v := by
  have hsize : ¬ ((day :: month :: rest).length = 1 ∧
      (day :: month :: rest).head? = some "END".toList) := by
    simp only [List.length_cons]; omega
  have hsize2 : ¬ ((day :: month :: rest).length ≠ 2 + 5 * L.length + 1) := by
    simp only [List.length_cons]; omega
  have hinit := record_init_loop_inv L vec
  have h1 := record_token_inv y L ex0 vec (record_init vec) (1 + 5 * L.length + 1) day
    (by have : 1 + 5 * L.length + 1 + 1 = 2 + 5 * L.length + 1 := by omega
        rw [this]; exact hinit)
  rw [record_token_day y L ex0 _ day rfl hday] at h1
  have h2 := record_token_inv y L ex0 vec _ (5 * L.length + 1) month
    (by have : 5 * L.length + 1 + 1 = 1 + 5 * L.length + 1 := by omega
        rw [this]; exact h1)
  rw [record_token_month y L ex0 _ month rfl rfl hmonth] at h2
  have hsplit : rest = rest.take (5 * L.length) ++ rest.drop (5 * L.length) :=
    (List.take_append_drop _ _).symm
  have hl1 : (rest.take (5 * L.length)).length = 5 * L.length := by
    rw [List.length_take]; omega
  have hl2 : (rest.drop (5 * L.length)).length = 1 := by
    rw [List.length_drop]; omega
  obtain ⟨v, hv⟩ := record_tokens_bad_number y L ex0 vec (rest.drop (5 * L.length))
    (by omega) (rest.take (5 * L.length)) _
    (by rw [hl1, hl2]; exact h2) rfl rfl hbad
  rw [← hsplit] at hv
  refine ⟨v, ?_⟩
  simp only [process_record, htok]
  rw [if_neg hsize, if_neg hsize2]
  rw [record_tokens, record_token_day y L ex0 _ day rfl hday]
  simp only []
  rw [record_tokens, record_token_month y L ex0 _ month rfl rfl hmonth]
  simp only []
  rw [hv]

/-! ## The trailing token -/

theorem record_tokens_trailing (y : Nat) (L : List ruota_t) (hL : 1 ≤ L.length)
    (ex0 : Nat → Nat) (vec0 : List Nat) (x1 x2 : List Char) :
    ∀ (pre : List (List Char)) (s : record_state),
      loop_inv L vec0 s (pre.length + 1) →
      record_tokens y L ex0 (pre ++ [x1]) s = record_tokens y L ex0 (pre ++ [x2]) s := by
  intro pre
  induction pre with
  | nil =>
    intro s h
    obtain ⟨_, hi1, hi5, hidx, hcount⟩ := h
    have hlt := hidx (by omega)
    have hph : phase s ≤ 2 := by
      simp only [phase]; split <;> try split
      all_goals omega
    simp only [List.length_nil] at hcount
    omega
  | cons t pre ih =>
    intro s h
    have hstep := record_token_inv y L ex0 vec0 s (pre.length + 1) t h
    rw [List.cons_append, List.cons_append, record_tokens, record_tokens]
    cases hres : record_token y L ex0 s t with
    | next s1 => rw [hres] at hstep; exact ih s1 hstep
    | break_exit s1 => rfl
    | break_end s1 => rfl
    | return_error v => rfl
    | undefined => rfl

theorem process_record_trailing (y : Nat) (L : List ruota_t) (hL : 1 ≤ L.length)
    (ex0 : Nat → Nat) (vec : List Nat) (r1 r2 x1 x2 : List Char)
    (pre : List (List Char)) (ht1 : tokenizer r1 = pre ++ [x1])
    (ht2 : tokenizer r2 = pre ++ [x2]) (hlen : pre.length = 2 + 5 * L.length) :
    process_record y L ex0 vec r1 = process_record y L ex0 vec r2 := by
  have hsize : ∀ x : List Char, ¬ ((pre ++ [x]).length = 1 ∧
      (pre ++ [x]).head? = some "END".toList) := by
    intro x
    simp only [List.length_append, List.length_singleton]; omega
  have hsize2 : ∀ x : List Char, ¬ ((pre ++ [x]).length ≠ 2 + 5 * L.length + 1) := by
    intro x
    simp only [List.length_append, List.length_singleton]; omega
  have hrun := record_tokens_trailing y L hL ex0 vec x1 x2 pre (record_init vec)
    (by rw [hlen]; exact record_init_loop_inv L vec)
  simp only [process_record, ht1, ht2]
  rw [if_neg (hsize x1), if_neg (hsize x2), if_neg (hsize2 x1), if_neg (hsize2 x2), hrun]

theorem records_loop_congr (y : Nat) (L : List ruota_t) (ex0 : Nat → Nat)
    (r1 r2 : List Char) (after : List (List Char))
    (h : ∀ vec, process_record y L ex0 vec r1 = process_record y L ex0 vec r2) :
    ∀ (before : List (List Char)) (vec : List Nat),
      records_loop y L ex0 (before ++ r1 :: after) vec =
        records_loop y L ex0 (before ++ r2 :: after) vec := by
  intro before
  induction before with
  | nil =>
    intro vec
    simp only [List.nil_append, records_loop, h vec]
  | cons l more ih =>
    intro vec
    rw [List.cons_append, List.cons_append, records_loop, records_loop]
    cases process_record y L ex0 vec l with
    | next_line v => exact ih v
    | stop v => rfl
    | error v => rfl
    | undefined => rfl

/-! ## The field parser on tokens that are not decimal -/

theorem char_eq_iff (c d : Char) : c = d ↔ c.toNat = d.toNat := by
  constructor
  · intro h; rw [h]
  · intro h
    rw [← Char.ofNat_toNat c, ← Char.ofNat_toNat d, h]

theorem isdigit_iff (c : Char) : isdigit c = true ↔ 48 ≤ c.toNat ∧ c.toNat ≤ 57 := by
  simp [isdigit]

theorem isspace_iff (c : Char) :
    isspace c = true ↔ c.toNat = 32 ∨ (9 ≤ c.toNat ∧ c.toNat ≤ 13) := by
  simp [isspace]

theorem strtoul_single (c : Char) :
    strtoul [c] = if isdigit c = true then (c.toNat - 48, true) else (0, false) := by
  have hm : ('-' : Char).toNat = 45 := rfl
  have hp : ('+' : Char).toNat = 43 := rfl
  by_cases hsp : isspace c = true
  · have hd : ¬ isdigit c = true := by
      rw [isdigit_iff]; rw [isspace_iff] at hsp; omega
    simp [strtoul, hsp, hd, skip_sign]
  · by_cases hsg : c = '-' ∨ c = '+'
    · have hd : ¬ isdigit c = true := by
        rw [isdigit_iff]
        rcases hsg with h | h <;> rw [char_eq_iff] at h <;> omega
      simp [strtoul, hsp, skip_sign, hsg, hd]
    · by_cases hd : isdigit c = true
      · have hv : c.toNat - 48 ≤ 9 := by rw [isdigit_iff] at hd; omega
        have hneg : ¬ c = '-' := fun h => hsg (Or.inl h)
        have hplus : ¬ c = '+' := fun h => hsg (Or.inr h)
        simp [strtoul, hsp, skip_sign, hneg, hplus, hd, ULONG_MAX]
        omega
      · simp [strtoul, hsp, skip_sign, hsg, hd]

theorem strtoul_space (c : Char) (s : List Char) (h : isspace c = true) :
    strtoul (c :: s) = strtoul s := by
  simp only [strtoul, List.dropWhile_cons, h, if_true]

theorem convert_number_non_zero_pair (c1 c2 : Char) :
    convert_number_non_zero [c1, c2] =
      if c1 = '0' then
        (if (strtoul [c2]).2 = false ∨ 0 = (strtoul [c2]).1 then 0 else (strtoul [c2]).1)
      else
        (if (strtoul [c1, c2]).2 = false ∨ 0 = (strtoul [c1, c2]).1 then 0
         else (strtoul [c1, c2]).1) := by
  by_cases h : c1 = '0'
  · simp [convert_number_non_zero, h]
  · simp [convert_number_non_zero, h]

theorem strtoul_sign (c1 c2 : Char) (h : c1 = '+' ∨ c1 = '-') :
    strtoul [c1, c2] =
      if isdigit c2 = true then
        (if c1 = '-' then (2 ^ 64 - (c2.toNat - 48)) % 2 ^ 64 else c2.toNat - 48, true)
      else (0, false) := by
  have hsp : ¬ isspace c1 = true := by
    rw [isspace_iff]
    rcases h with h | h <;> rw [char_eq_iff] at h <;>
      simp only [show ('+' : Char).toNat = 43 from rfl,
        show ('-' : Char).toNat = 45 from rfl] at h <;> omega
  by_cases hd : isdigit c2 = true
  · have hv : c2.toNat - 48 ≤ 9 := by rw [isdigit_iff] at hd; omega
    rcases h with rfl | rfl
    · simp [strtoul, hsp, skip_sign, hd, ULONG_MAX]
      omega
    · simp [strtoul, hsp, skip_sign, hd, ULONG_MAX]
      omega
  · rcases h with rfl | rfl <;> simp [strtoul, hsp, skip_sign, hd]

theorem strtoul_digit_stop (c1 c2 : Char) (h1 : isdigit c1 = true)
    (h2 : ¬ isdigit c2 = true) : strtoul [c1, c2] = (c1.toNat - 48, true) := by
  have hr := (isdigit_iff c1).1 h1
  have hsp : ¬ isspace c1 = true := by rw [isspace_iff]; omega
  have hneg : ¬ c1 = '-' := by
    rw [char_eq_iff, show ('-' : Char).toNat = 45 from rfl]; omega
  have hplus : ¬ c1 = '+' := by
    rw [char_eq_iff, show ('+' : Char).toNat = 43 from rfl]; omega
  simp [strtoul, hsp, skip_sign, hneg, hplus, h1, h2, ULONG_MAX]
  omega

theorem strtoul_no_number (c1 c2 : Char) (hsp : ¬ isspace c1 = true)
    (hsg : ¬ (c1 = '+' ∨ c1 = '-')) (hd : ¬ isdigit c1 = true) :
    strtoul [c1, c2] = (0, false) := by
  have hneg : ¬ c1 = '-' := fun h => hsg (Or.inr h)
  have hplus : ¬ c1 = '+' := fun h => hsg (Or.inl h)
  simp [strtoul, hsp, skip_sign, hneg, hplus, hd]


/-! ## Group completions -/

theorem encode_decode_raw (ex0 raw : Nat) (h : raw < 2 ^ 64) :
    encode ex0 (decode raw) = raw := by
  have hu := unpack raw
  rw [Nat.mod_eq_of_lt h] at hu
  simp only [encode, decode, make_extraction_eq, bits_ruota, bits_a, bits_b, bits_c, bits_d,
    bits_e, bits_day, bits_month, bits_year, get_field, Nat.pow_zero, Nat.div_one]
  norm_num
  norm_num at hu
  exact hu.symm

theorem encode_independent (ex0 ex1 : Nat) (d : bits_t) : encode ex0 d = encode ex1 d := by
  simp only [encode, make_extraction_eq]

theorem completion_indices_lt (y : Nat) (L : List ruota_t) (ex0 : Nat → Nat)
    (vec0 : List Nat) :
    ∀ (toks : List (List Char)) (s : record_state),
      loop_inv L vec0 s toks.length →
      ∀ i ∈ completion_indices y L ex0 toks s, i < L.length := by
  intro toks
  induction toks with
  | nil => intro s _ i hi; simp [completion_indices] at hi
  | cons t rest ih =>
    intro s h i hi
    have hstep := record_token_inv y L ex0 vec0 s rest.length t h
    rw [completion_indices] at hi
    rcases List.mem_append.mp hi with hi | hi
    · split at hi
      · rename_i hc
        simp only [completes_group, decide_eq_true_eq] at hc
        obtain ⟨hf, hs, _, hiter⟩ := hc
        simp only [List.mem_singleton] at hi
        subst hi
        obtain ⟨_, hi1, hi5, hidx, hcount⟩ := h
        have hph : phase s = 0 := by simp [phase, hf, hs]
        rw [hph] at hcount
        simp only [List.length_cons] at hcount
        omega
      · simp at hi
    · cases hres : record_token y L ex0 s t with
      | next s1 =>
        rw [hres] at hstep hi
        exact ih s1 hstep i hi
      | break_exit s1 => rw [hres] at hi; simp at hi
      | break_end s1 => rw [hres] at hi; simp at hi
      | return_error v => rw [hres] at hi; simp at hi
      | undefined => rw [hres] at hi; simp at hi

theorem process_record_defined (y : Nat) (L : List ruota_t) (ex0 : Nat → Nat)
    (vec : List Nat) (record : List Char) :
    process_record y L ex0 vec record ≠ record_step.undefined := by
  intro h
  have hloc := process_record_located y L ex0 vec record
  rw [h] at hloc
  exact hloc

theorem process_file_defined (y : Nat) (vec : List Nat) (infile : Option (List Char))
    (ex0 : Nat → Nat) : process_file vec y infile ex0 ≠ none := by
  cases infile with
  | none => simp [process_file]
  | some text =>
    simp only [process_file]
    cases parse_header y (getlines text).1 with
    | none => simp
    | some L =>
      obtain ⟨ret, v, hv, _⟩ := records_loop_located y L ex0 (getlines text).2 vec
      simp only [hv]
      simp

/-! ## Record codec -/

/-- C1: for every valid draw `d` (location one of the 11 named locations, day in
1..31, month in 1..12, year in 0..65535, each number in 0..90), writing the nine
bit-fields of `extraction_t` and reading them back from the raw value returns
exactly `d`, whatever the local record held before the fields were written. -/
theorem decode_encode_valid (ex0 : Nat) (d : bits_t) (h : valid_draw d) :
    decode (encode ex0 d) = d := by
  obtain ⟨h1, h2, h3, h4, h5, h6, h7, h8, h9, h10, h11⟩ := h
  exact decode_encode ex0 d (by omega) (by omega) (by omega) (by omega) (by omega)
    (by omega) (by omega) (by omega) (by omega)

theorem decode_encode_valid_witness :
    valid_draw ⟨1, 10, 20, 30, 40, 50, 31, 12, 2000⟩ ∧
      decode (encode 77 ⟨1, 10, 20, 30, 40, 50, 31, 12, 2000⟩) =
        ⟨1, 10, 20, 30, 40, 50, 31, 12, 2000⟩ :=
  ⟨by decide, decode_encode_valid 77 ⟨1, 10, 20, 30, 40, 50, 31, 12, 2000⟩ (by decide)⟩

/-- C3: for every valid draw the packed 64-bit record is
`location + 2^4*n1 + 2^11*n2 + 2^18*n3 + 2^25*n4 + 2^32*n5 + 2^39*day + 2^44*month +
2^48*year`: the fields have the widths 4, 7, 7, 7, 7, 7, 5, 4, 16 from the least
significant bit upward, without gap or overlap. -/
theorem encode_layout (ex0 : Nat) (d : bits_t) (h : valid_draw d) :
    encode ex0 d =
      d.ruota + 2 ^ 4 * d.a + 2 ^ 11 * d.b + 2 ^ 18 * d.c + 2 ^ 25 * d.d + 2 ^ 32 * d.e +
        2 ^ 39 * d.day + 2 ^ 44 * d.month + 2 ^ 48 * d.year := by
  obtain ⟨h1, h2, h3, h4, h5, h6, h7, h8, h9, h10, h11⟩ := h
  simp only [encode, make_extraction_eq, pack]
  rw [Nat.mod_eq_of_lt (by omega : d.ruota < 16), Nat.mod_eq_of_lt (by omega : d.a < 128),
    Nat.mod_eq_of_lt (by omega : d.b < 128), Nat.mod_eq_of_lt (by omega : d.c < 128),
    Nat.mod_eq_of_lt (by omega : d.d < 128), Nat.mod_eq_of_lt (by omega : d.e < 128),
    Nat.mod_eq_of_lt (by omega : d.day < 32), Nat.mod_eq_of_lt (by omega : d.month < 16),
    Nat.mod_eq_of_lt (by omega : d.year < 65536)]

theorem encode_layout_witness :
    valid_draw ⟨8, 90, 0, 45, 7, 1, 1, 1, 1871⟩ ∧
      encode 5 ⟨8, 90, 0, 45, 7, 1, 1, 1, 1871⟩ =
        8 + 2 ^ 4 * 90 + 2 ^ 11 * 0 + 2 ^ 18 * 45 + 2 ^ 25 * 7 + 2 ^ 32 * 1 + 2 ^ 39 * 1 +
          2 ^ 44 * 1 + 2 ^ 48 * 1871 :=
  ⟨by decide, encode_layout 5 ⟨8, 90, 0, 45, 7, 1, 1, 1, 1871⟩ (by decide)⟩

/-! ## Binary serializer and verifier -/

/-- C2: for every sequence of 64-bit records, `save_file_db` succeeds on a file
it can open and `verify_file_db` of the sequence against the bytes written
returns 0. -/
theorem verify_save_file_db (seq : List Nat) (h : ∀ r ∈ seq, r < 2 ^ 64) :
    (save_file_db seq true).1 = 0 ∧
      verify_file_db seq (some (save_file_db seq true).2) = 0 := by
  have hrun := verify_loop_save_loop seq h 0 []
  rw [List.append_nil] at hrun
  simp only [save_file_db, if_true, verify_file_db, verify_file_db_run, hrun, and_self]

theorem verify_save_file_db_witness :
    (∀ r ∈ [562968311461617825, 0, 18446744073709551615], r < 2 ^ 64) ∧
      (save_file_db [562968311461617825, 0, 18446744073709551615] true).1 = 0 ∧
      verify_file_db [562968311461617825, 0, 18446744073709551615]
        (some (save_file_db [562968311461617825, 0, 18446744073709551615] true).2) = 0 :=
  ⟨by decide,
    verify_save_file_db [562968311461617825, 0, 18446744073709551615] (by decide)⟩

/-- C4: for every sequence of records `save_file_db` writes exactly
`8 * len(seq)` bytes, nothing before and nothing after them, and the byte at
offset `8 * i + k` (`i < len(seq)`, `k` in 0..7) is `(raw_i >> (56 - 8 * k)) & 0xFF`:
the records come in sequence order, each most significant byte first. -/
theorem save_file_db_bytes (seq : List Nat) :
    (save_file_db seq true).2.length = 8 * seq.length ∧
      ∀ (i : Nat) (hi : i < seq.length) (k : Nat), k < 8 →
        (save_file_db seq true).2[8 * i + k]? =
          some ((seq[i] >>> (56 - 8 * k)) &&& 0xFF) := by
  simp only [save_file_db, if_true]
  exact ⟨save_loop_length seq, fun i hi k hk => save_loop_getElem seq i hi k hk⟩

theorem save_file_db_bytes_witness :
    (save_file_db [5, 72623859790382856] true).2[8 * 1 + 3]? =
      some (([5, 72623859790382856][1] >>> (56 - 8 * 3)) &&& 0xFF) :=
  (save_file_db_bytes [5, 72623859790382856]).2 1 (by decide) 3 (by decide)

/-! ## Field parser -/

/-- C6: `convert_number_non_zero` returns 0 (failure) for every token whose
length is not 2; for a token of two decimal digits it returns 0 when the token
is `00` and otherwise its decimal value, a leading `0` being stripped first. -/
theorem convert_number_non_zero_spec (t : List Char) :
    (t.length ≠ 2 → convert_number_non_zero t = 0) ∧
      ∀ c1 c2 : Char, t = [c1, c2] → isdigit c1 = true → isdigit c2 = true →
        convert_number_non_zero t =
          if t = "00".toList then 0 else 10 * (c1.toNat - 48) + (c2.toNat - 48) := by
  constructor
  · intro h
    simp only [convert_number_non_zero, h, ne_eq, not_false_eq_true, if_true]
  · intro c1 c2 ht h1 h2
    subst ht
    exact convert_number_non_zero_digits c1 c2 h1 h2

theorem convert_number_non_zero_spec_witness :
    convert_number_non_zero "123".toList = 0 ∧ convert_number_non_zero "07".toList = 7 ∧
      convert_number_non_zero "10".toList = 10 ∧ convert_number_non_zero "00".toList = 0 :=
  ⟨(convert_number_non_zero_spec "123".toList).1 (by decide),
    ((convert_number_non_zero_spec "07".toList).2 '0' '7' rfl (by decide) (by decide)).trans
      (by decide),
    ((convert_number_non_zero_spec "10".toList).2 '1' '0' rfl (by decide) (by decide)).trans
      (by decide),
    ((convert_number_non_zero_spec "00".toList).2 '0' '0' rfl (by decide) (by decide)).trans
      (by decide)⟩

/-! ## Line parser -/

/-- C5, as stated, fails for a year above 65535: processing the year 65536 with
the active locations `[BARI]`, the line `01 GEN 10 20 30 40 50 x` appends one
record whose year field reads 0, while the draw of the line has the year 65536. -/
theorem process_record_year_truncated :
    process_file [] 65536 (some "65536 BARI\n01 GEN 10 20 30 40 50 x".toList)
        (fun _ => 0) = some (0, [18358040305825]) ∧
      decode 18358040305825 = ⟨1, 10, 20, 30, 40, 50, 1, 1, 0⟩ ∧
      line_draws 65536 [ruota_t.BARI] (tokenizer "01 GEN 10 20 30 40 50 x".toList) =
        [⟨1, 10, 20, 30, 40, 50, 1, 1, 65536⟩] ∧
      ¬ ∃ new, process_record 65536 [ruota_t.BARI] (fun _ => 0) []
            "01 GEN 10 20 30 40 50 x".toList = record_step.next_line ([] ++ new) ∧
          new.map decode =
            line_draws 65536 [ruota_t.BARI]
              (tokenizer "01 GEN 10 20 30 40 50 x".toList) := by
  refine ⟨by decide, by decide, by decide, ?_⟩
  rintro ⟨new, hrun, hdraws⟩
  have heval : process_record 65536 [ruota_t.BARI] (fun _ => 0) []
      "01 GEN 10 20 30 40 50 x".toList = record_step.next_line [18358040305825] := by
    decide
  rw [heval, List.nil_append] at hrun
  injection hrun with hnew
  subst hnew
  revert hdraws
  decide

/-- C5 (amended): for every year up to 65535, every active-location list `L` of
size `n ≥ 1` and every record line of `2 + 5 * n + 1` tokens with a valid day, a
month name and `5 * n` number tokens that are each `--` or a valid number in
1..90, the loop body of `process_file` goes on to the next line having appended,
in group order, exactly one record for each group whose first token is not `--`;
its fields are the location `L[j]`, the day, the month, the year and the five
values of the group with `--` stored as 0.  A group whose first token is `--`
appends nothing. -/
theorem process_record_draws (year : Nat) (hy : year ≤ 65535) (L : List ruota_t)
    (hL : 1 ≤ L.length) (ex0 : Nat → Nat) (vec : List Nat) (record day month : List Char)
    (rest : List (List Char)) (htok : tokenizer record = day :: month :: rest)
    (hlen : rest.length = 5 * L.length + 1) (hday : day_token_valid day)
    (hmonth : month_token_valid month)
    (hnum : ∀ t ∈ rest.take (5 * L.length), number_token_ok t) :
    ∃ new, process_record year L ex0 vec record = record_step.next_line (vec ++ new) ∧
      new.map decode = line_draws year L (day :: month :: rest) := by
  have hmax : max (5 * L.length) 1 = 5 * L.length := by omega
  refine ⟨(line_draws year L (day :: month :: rest)).map (encode 0),
    process_record_well_formed year L ex0 vec record day month rest htok hlen hday hmonth
      (by rw [examined_numbers, hmax]; exact hnum), ?_⟩
  rw [List.map_map]
  have hfit := line_draws_fit year hy L day month rest hlen hday hnum
  calc (line_draws year L (day :: month :: rest)).map (decode ∘ encode 0)
      = (line_draws year L (day :: month :: rest)).map id :=
        List.map_congr_left (fun d hd => hfit d hd)
    _ = line_draws year L (day :: month :: rest) := List.map_id _

theorem process_record_draws_witness :
    ∃ new, process_record 2000 [ruota_t.BARI, ruota_t.ROMA] (fun _ => 77) [5]
        "01 GEN 10 20 30 40 50 -- 02 03 04 05 x".toList =
          record_step.next_line ([5] ++ new) ∧
      new.map decode =
        line_draws 2000 [ruota_t.BARI, ruota_t.ROMA]
          ("01".toList :: "GEN".toList ::
            ["10".toList, "20".toList, "30".toList, "40".toList, "50".toList, "--".toList,
              "02".toList, "03".toList, "04".toList, "05".toList, "x".toList]) :=
  process_record_draws 2000 (by decide) [ruota_t.BARI, ruota_t.ROMA] (by decide)
    (fun _ => 77) [5] "01 GEN 10 20 30 40 50 -- 02 03 04 05 x".toList "01".toList
    "GEN".toList
    ["10".toList, "20".toList, "30".toList, "40".toList, "50".toList, "--".toList,
      "02".toList, "03".toList, "04".toList, "05".toList, "x".toList]
    (by decide) (by decide) (by decide) (by decide) (by decide)

/-- C7: the code at the failing inputs.  With two active locations a record line
of 12 or of 14 tokens makes `process_file` stop reading and return 0, not a
failure; the well-formed line that follows such a line is silently dropped. -/
theorem process_file_ill_formed_record :
    process_file [] 2000
        (some "2000 BARI ROMA\n01 GEN 10 20 30 40 50 11 21 31 41 51\n".toList)
        (fun _ => 0) = some (0, []) ∧
      process_file [] 2000
        (some "2000 BARI ROMA\n01 GEN 10 20 30 40 50 11 21 31 41 51 x y\n".toList)
        (fun _ => 0) = some (0, []) ∧
      process_file [] 2000
        (some ("2000 BARI\n01 GEN 10 20 30 40 50 x\n02 GEN 10 20 30 40\n" ++
          "03 GEN 10 20 30 40 50 x").toList)
        (fun _ => 0) = some (0, [562968311461617825]) := by
  decide

/-- C8, as stated, fails when the number read from the header does not fit the
32-bit variable `current_year`.  Processing the year 1986, the header token
`4294969282` parses to the unsigned integer 4294969282, different from 1986, yet
`current_year` is 4294969282 mod 2^32 = 1986: the header is accepted and the
record line appends a draw.  Processing the year 4294967295, the header token
`99999999999999999999` saturates `strtoul` and is accepted as well. -/
theorem process_file_year_wraps :
    strtoul (c_str "4294969282".toList) = (4294969282, true) ∧
      process_file [] 1986 (some "4294969282 BARI\n01 GEN 10 20 30 40 50 x".toList)
        (fun _ => 0) = some (0, [559027661787668641]) ∧
      strtoul (c_str "99999999999999999999".toList) = (18446744073709551615, true) ∧
      process_file [] 4294967295
        (some "99999999999999999999 BARI\n01 GEN 10 20 30 40 50 x".toList)
        (fun _ => 0) = some (0, [18446480956773146785]) := by
  decide

/-- C8 (amended): for every year `y` and every header whose first token parses
to an unsigned integer whose value in the 32-bit variable `current_year` (the
`strtoul` result modulo 2^32) is different from `y`, `process_file` returns -1 and
leaves the vector as it was, whatever the record lines contain. -/
theorem process_file_year_mismatch (y : Nat) (vec : List Nat) (text : List Char)
    (ex0 : Nat → Nat) (t : List Char) (rest : List (List Char)) (v : Nat)
    (htok : tokenizer (getlines text).1 = t :: rest) (hparse : current_year t = some v)
    (hne : v ≠ y) :
    process_file vec y (some text) ex0 = some (-1, vec) := by
  simp only [process_file, parse_header, htok,
    header_loop_year_mismatch y t rest v hparse hne]

theorem process_file_year_mismatch_witness :
    process_file [5] 1986 (some "1985 BARI ROMA\n01 GEN 10 20 30 40 50 x".toList)
      (fun _ => 0) = some (-1, [5]) :=
  process_file_year_mismatch 1986 [5] "1985 BARI ROMA\n01 GEN 10 20 30 40 50 x".toList
    (fun _ => 0) "1985".toList ["BARI".toList, "ROMA".toList] 1985 (by decide) (by decide)
    (by decide)

/-- C9: for every input whose header is valid and whose record lines before
line `k` are well formed, if line `k` is exactly the single token `END` then
`process_file` returns 0, the records appended are exactly the draws of the lines
before `k`, and the lines after `k` contribute nothing, whatever they contain. -/
theorem process_file_end (y : Nat) (vec : List Nat) (text : List Char) (ex0 : Nat → Nat)
    (L : List ruota_t) (header endline : List Char) (before after : List (List Char))
    (hlines : getlines text = (header, before ++ endline :: after))
    (hheader : parse_header y header = some L)
    (hwf : ∀ l ∈ before, record_well_formed L l)
    (hend : tokenizer endline = ["END".toList]) :
    process_file vec y (some text) ex0 =
      some (0, vec ++
        (before.flatMap (fun l => line_draws y L (tokenizer l))).map (encode 0)) := by
  simp only [process_file, hlines, hheader]
  exact records_loop_end y L ex0 endline after hend before vec hwf

theorem process_file_end_witness :
    process_file [5] 2000
        (some ("2000 BARI ROMA\n01 GEN 10 20 30 40 50 -- 02 03 04 05 x\nEND\n" ++
          "99 nonsense\n").toList) (fun _ => 77) =
      some (0, [5] ++
        (["01 GEN 10 20 30 40 50 -- 02 03 04 05 x".toList].flatMap
          (fun l => line_draws 2000 [ruota_t.BARI, ruota_t.ROMA] (tokenizer l))).map
            (encode 0)) :=
  process_file_end 2000 [5]
    ("2000 BARI ROMA\n01 GEN 10 20 30 40 50 -- 02 03 04 05 x\nEND\n" ++
      "99 nonsense\n").toList (fun _ => 77) [ruota_t.BARI, ruota_t.ROMA]
    "2000 BARI ROMA".toList "END".toList ["01 GEN 10 20 30 40 50 -- 02 03 04 05 x".toList]
    ["99 nonsense".toList, []] (by decide) (by decide) (by decide) (by decide)

/-- C10: for every year `y ≤ 65535` and every input, `process_file` returns a
result code, keeps the records the vector held and appends only records with day
in 1..31, month in 1..12, first number in 1..90, the other numbers in 0..90 and
year field `y`, in success and in failure alike. -/
theorem process_file_draws_in_range (y : Nat) (hy : y ≤ 65535) (vec : List Nat)
    (infile : Option (List Char)) (ex0 : Nat → Nat) :
    ∃ ret new, process_file vec y infile ex0 = some (ret, vec ++ new) ∧
      ∀ r ∈ new, draw_in_range y (decode r) := by
  cases infile with
  | none => exact ⟨-1, [], by simp [process_file], by simp⟩
  | some text =>
    simp only [process_file]
    cases hh : parse_header y (getlines text).1 with
    | none => exact ⟨-1, [], by simp, by simp⟩
    | some L =>
      obtain ⟨ret, v, hv, new, rfl, hnew⟩ := records_loop_ok y hy L ex0 (getlines text).2 vec
      exact ⟨ret, new, hv, hnew⟩

theorem process_file_draws_in_range_witness :
    ∃ ret new,
      process_file [5] 2000
        (some "2000 BARI\n01 GEN 10 20 30 40 50 x\n02 GEN 91 20 30 40 50 x".toList)
        (fun _ => 77) = some (ret, [5] ++ new) ∧
      ∀ r ∈ new, draw_in_range 2000 (decode r) :=
  process_file_draws_in_range 2000 (by decide) [5]
    (some "2000 BARI\n01 GEN 10 20 30 40 50 x\n02 GEN 91 20 30 40 50 x".toList)
    (fun _ => 77)

/-! ## Locations of the stored draws -/

/-- C11, as stated, fails for the catch-all category: the header `2000 TUTTE` puts
`TUTTE` in the active-location list and the record line appends a draw whose
location field is 11, the value of `TUTTE`, which is none of the 11 named
locations. -/
theorem process_file_stores_tutte :
    convert_string_to_ruota (c_str "TUTTE".toList) = ruota_t.TUTTE ∧
      parse_header 2000 "2000 TUTTE".toList = some [ruota_t.TUTTE] ∧
      process_file [] 2000 (some "2000 TUTTE\n01 GEN 10 20 30 40 50 x".toList)
        (fun _ => 0) = some (0, [562968311461617835]) ∧
      (decode 562968311461617835).ruota = ruota_t.TUTTE.val ∧
      ¬ (decode 562968311461617835).ruota ≤ 10 := by
  decide

/-- C11 (amended): for every year, header and input, `process_file` returns, and
every draw it appends has as location a value that a token of the header line
after the first one names: one of the 11 locations, or the catch-all `TUTTE`
when the header lists it; never the unknown sentinel. -/
theorem process_file_draws_located (y : Nat) (vec : List Nat)
    (infile : Option (List Char)) (ex0 : Nat → Nat) :
    ∃ ret new, process_file vec y infile ex0 = some (ret, vec ++ new) ∧
      ∀ r ∈ new, ∃ (text : List Char) (current_ruote : List ruota_t) (ruota : ruota_t),
        infile = some text ∧
        parse_header y (getlines text).1 = some current_ruote ∧
        ruota ∈ current_ruote ∧
        (∃ t ∈ (tokenizer (getlines text).1).tail,
          convert_string_to_ruota (c_str t) = ruota) ∧
        ruota ≠ ruota_t.UNKNOWN ∧
        (decode r).ruota = ruota.val ∧
        ((decode r).ruota ≤ 10 ∨
          ((decode r).ruota = ruota_t.TUTTE.val ∧ ruota_t.TUTTE ∈ current_ruote)) := by
  cases infile with
  | none => exact ⟨-1, [], by simp [process_file], by simp⟩
  | some text =>
    simp only [process_file]
    cases hh : parse_header y (getlines text).1 with
    | none => exact ⟨-1, [], by simp, by simp⟩
    | some L =>
      have hlisted := parse_header_listed y _ L hh
      obtain ⟨ret, v, hv, new, rfl, hnew⟩ :=
        records_loop_located y L ex0 (getlines text).2 vec
      refine ⟨ret, new, hv, fun r hr => ?_⟩
      obtain ⟨ruota, hmem, hbits⟩ := hnew r hr
      have hloc : (decode r).ruota = ruota.val := hbits
      refine ⟨text, L, ruota, rfl, hh, hmem, (hlisted ruota hmem).2,
        (hlisted ruota hmem).1, hloc, ?_⟩
      rw [hloc]
      have hknown := (hlisted ruota hmem).1
      cases ruota with
      | TUTTE => exact Or.inr ⟨rfl, hmem⟩
      | UNKNOWN => exact absurd rfl hknown
      | _ => exact Or.inl (by decide)

/-! ## Verification of a written file -/

/-- C12: for every sequence of 64-bit records, every byte offset `k` below
`8 * len(seq)` and every byte value different from the one written there,
`verify_file_db` of the sequence against the written bytes with the byte at offset
`k` replaced fails, and the record number it reports is `k / 8 + 1`. -/
theorem verify_corrupted_byte (seq : List Nat) (hseq : ∀ r ∈ seq, r < 2 ^ 64) (k : Nat)
    (hk : k < 8 * seq.length) (b : Nat) (hb : b < 256)
    (hne : (save_file_db seq true).2[k]? ≠ some b) :
    verify_file_db seq (some ((save_file_db seq true).2.set k b)) = -1 ∧
      ∃ expected found,
        verify_file_db_run seq (some ((save_file_db seq true).2.set k b)) =
          verify_result.inconsistent_extraction (k / 8 + 1) expected found := by
  simp only [save_file_db, if_true] at hne ⊢
  obtain ⟨expected, found, hrun⟩ := verify_loop_corrupted b hb seq 0 k hseq hk hne
  rw [Nat.zero_add] at hrun
  refine ⟨?_, expected, found, ?_⟩
  · simp only [verify_file_db, verify_file_db_run, hrun]
  · simp only [verify_file_db_run, hrun]

theorem verify_corrupted_byte_witness :
    verify_file_db [5, 6] (some ((save_file_db [5, 6] true).2.set 9 1)) = -1 ∧
      ∃ expected found,
        verify_file_db_run [5, 6] (some ((save_file_db [5, 6] true).2.set 9 1)) =
          verify_result.inconsistent_extraction (9 / 8 + 1) expected found :=
  verify_corrupted_byte [5, 6] (by decide) 9 (by decide) 1 (by decide) (by decide)

/-- C19: for every sequence of 64-bit records and every byte stream,
`verify_file_db` returns 0 exactly when the stream has at least `8 * len(seq)`
bytes and its first `8 * len(seq)` bytes are the bytes `save_file_db` writes for
the sequence; a shorter stream gives -1, and two streams with the same first
`8 * len(seq)` bytes give the same result. -/
theorem verify_file_db_iff (seq : List Nat) (hseq : ∀ r ∈ seq, r < 2 ^ 64)
    (file : List Nat) (hfile : ∀ x ∈ file, x < 256) :
    (verify_file_db seq (some file) = 0 ↔
        8 * seq.length ≤ file.length ∧
          file.take (8 * seq.length) = (save_file_db seq true).2) ∧
      (file.length < 8 * seq.length → verify_file_db seq (some file) = -1) ∧
      ∀ other : List Nat, (∀ x ∈ other, x < 256) →
        other.take (8 * seq.length) = file.take (8 * seq.length) →
        verify_file_db seq (some other) = verify_file_db seq (some file) := by
  have hiff : ∀ f : List Nat, (∀ x ∈ f, x < 256) →
      (verify_file_db seq (some f) = 0 ↔
        8 * seq.length ≤ f.length ∧ f.take (8 * seq.length) = save_loop seq) := by
    intro f hf
    rw [verify_file_db_eq_zero_iff]
    exact verify_loop_ok_iff seq 0 f hseq hf
  simp only [save_file_db, if_true]
  refine ⟨hiff file hfile, ?_, ?_⟩
  · intro hshort
    apply verify_file_db_ne_zero
    intro h0
    have := ((hiff file hfile).1 h0).1
    omega
  · intro other hother htake
    have hlen : min (8 * seq.length) other.length = min (8 * seq.length) file.length := by
      have := congrArg List.length htake
      simpa [List.length_take] using this
    have hsame : (8 * seq.length ≤ other.length ∧
        other.take (8 * seq.length) = save_loop seq) ↔
        (8 * seq.length ≤ file.length ∧ file.take (8 * seq.length) = save_loop seq) := by
      rw [htake]
      constructor
      · rintro ⟨h1, h2⟩; exact ⟨by omega, h2⟩
      · rintro ⟨h1, h2⟩; exact ⟨by omega, h2⟩
    by_cases h0 : verify_file_db seq (some file) = 0
    · rw [h0]
      exact (hiff other hother).2 (hsame.2 ((hiff file hfile).1 h0))
    · rw [verify_file_db_ne_zero seq _ h0]
      apply verify_file_db_ne_zero
      intro h1
      exact h0 ((hiff file hfile).2 (hsame.1 ((hiff other hother).1 h1)))

theorem verify_file_db_iff_witness :
    (verify_file_db [5, 6] (some [0, 0, 0, 0, 0, 0, 0, 5, 0, 0, 0, 0, 0, 0, 0, 6, 77]) = 0 ↔
        8 * [5, 6].length ≤ [0, 0, 0, 0, 0, 0, 0, 5, 0, 0, 0, 0, 0, 0, 0, 6, 77].length ∧
          [0, 0, 0, 0, 0, 0, 0, 5, 0, 0, 0, 0, 0, 0, 0, 6, 77].take (8 * [5, 6].length) =
            (save_file_db [5, 6] true).2) ∧
      verify_file_db [5, 6] (some [0, 0, 0, 0, 0, 0, 0, 5, 0, 0, 0, 0, 0, 0, 0, 6, 77]) = 0 :=
  ⟨(verify_file_db_iff [5, 6] (by decide)
      [0, 0, 0, 0, 0, 0, 0, 5, 0, 0, 0, 0, 0, 0, 0, 6, 77] (by decide)).1,
    by decide⟩

/-! ## Bit-field isolation -/

/-- C13: for all valid draws that differ in one field only, the packed records
agree on every bit outside the bit range of that field (location 0..3, n1 4..10,
n2 11..17, n3 18..24, n4 25..31, n5 32..38, day 39..43, month 44..47,
year 48..63). -/
theorem encode_frame (ex0 ex1 : Nat) (d : bits_t) (f : bit_field) (v : Nat)
    (hd : valid_draw d) (hv : valid_draw (d.set f v)) (i : Nat)
    (hi : i < f.offset ∨ f.offset + f.width ≤ i) :
    (encode ex0 d).testBit i = (encode ex1 (d.set f v)).testBit i := by
  rw [encode_eq_pack ex0 d hd, encode_eq_pack ex1 (d.set f v) hv]
  obtain ⟨hlo, hhi⟩ := pack_frame d f v hd hv
  exact testBit_frame _ _ f.offset f.width hlo hhi i hi

theorem encode_frame_witness :
    (encode 0 ⟨1, 10, 20, 30, 40, 50, 1, 1, 2000⟩).testBit 10 =
      (encode 7 ((⟨1, 10, 20, 30, 40, 50, 1, 1, 2000⟩ : bits_t).set bit_field.b 90)).testBit
        10 :=
  encode_frame 0 7 ⟨1, 10, 20, 30, 40, 50, 1, 1, 2000⟩ bit_field.b 90 (by decide)
    (by decide) 10 (by decide)

/-! ## Domain vocabulary -/

/-- C14: for every location value and every string equal to its canonical name
up to the case of its ASCII letters, `convert_string_to_ruota` returns that
value; likewise `convert_string_to_mese` for every month; and the string
`UNKNOWN` of the sentinels parses to the unknown location and to the null
month. -/
theorem convert_string_case_variant (l : ruota_t) (m : mese_t) (s : List Char) :
    (case_variant s (convert_ruota_to_string l) → convert_string_to_ruota s = l) ∧
      (case_variant s (convert_mese_to_string m) → convert_string_to_mese s = m) ∧
      convert_string_to_ruota "UNKNOWN".toList = ruota_t.UNKNOWN ∧
      convert_string_to_mese "UNKNOWN".toList = mese_t.NULL_MESE :=
  ⟨convert_string_to_ruota_variant l s, convert_string_to_mese_variant m s, by decide,
    by decide⟩

theorem convert_string_case_variant_witness :
    convert_string_to_ruota "nAzIoNaLe".toList = ruota_t.NAZIONALE ∧
      convert_string_to_mese "dic".toList = mese_t.DIC :=
  ⟨(convert_string_case_variant ruota_t.NAZIONALE mese_t.GEN "nAzIoNaLe".toList).1
      (by decide),
    (convert_string_case_variant ruota_t.BARI mese_t.DIC "dic".toList).2.1 (by decide)⟩

/-! ## Header phase -/

/-- C15, as stated, fails when the number read from the first header token does
not fit the 32-bit variable `current_year`: processing the year 1986, the token
`4294969282` parses to the unsigned integer 4294969282, which is not 1986, yet the
header phase succeeds with the active-location list `[BARI]`; processing the
year 4294967295, the token `99999999999999999999` saturates `strtoul` and is
accepted as well. -/
theorem parse_header_year_wraps :
    strtoul (c_str "4294969282".toList) = (4294969282, true) ∧
      parse_header 1986 "4294969282 BARI".toList = some [ruota_t.BARI] ∧
      strtoul (c_str "99999999999999999999".toList) = (18446744073709551615, true) ∧
      parse_header 4294967295 "99999999999999999999 BARI".toList =
        some [ruota_t.BARI] := by
  decide

/-- C15 (amended): for every year `y` and every header with a first token, the
header phase succeeds exactly when the first token reads as `y` in the 32-bit
`current_year` (its `strtoul` value modulo 2^32) and every other token is a
recognised location name or reads as `y` the same way; on success the
active-location list is the list of the recognised location tokens in header
order, and otherwise `process_file` returns -1 with the vector unchanged, before
any record line is read. -/
theorem parse_header_iff (y : Nat) (header t : List Char) (rest : List (List Char))
    (htok : tokenizer header = t :: rest) :
    ((∃ L, parse_header y header = some L) ↔ header_accepted y t rest) ∧
      (∀ L, parse_header y header = some L → L = header_locations rest) ∧
      (¬ header_accepted y t rest → ∀ (vec : List Nat) (text : List Char)
        (ex0 : Nat → Nat), (getlines text).1 = header →
        process_file vec y (some text) ex0 = some (-1, vec)) := by
  have heq := parse_header_eq y header t rest htok
  by_cases hacc : header_accepted y t rest
  · rw [if_pos hacc] at heq
    refine ⟨⟨fun _ => hacc, fun _ => ⟨_, heq⟩⟩, ?_, fun hno => absurd hacc hno⟩
    intro L hL
    rw [heq] at hL
    exact (Option.some.inj hL).symm
  · rw [if_neg hacc] at heq
    refine ⟨⟨?_, fun h => absurd h hacc⟩, ?_, ?_⟩
    · rintro ⟨L, hL⟩
      rw [heq] at hL
      exact absurd hL (by simp)
    · intro L hL
      rw [heq] at hL
      exact absurd hL (by simp)
    · intro _ vec text ex0 hhead
      simp only [process_file, hhead, heq]

theorem parse_header_iff_witness :
    ((∃ L, parse_header 1986 "1986 BARI roma 1986".toList = some L) ↔
        header_accepted 1986 "1986".toList ["BARI".toList, "roma".toList, "1986".toList]) ∧
      (∀ L, parse_header 1986 "1986 BARI roma 1986".toList = some L →
        L = header_locations ["BARI".toList, "roma".toList, "1986".toList]) ∧
      (¬ header_accepted 1986 "1986".toList
          ["BARI".toList, "roma".toList, "1986".toList] →
        ∀ (vec : List Nat) (text : List Char) (ex0 : Nat → Nat),
          (getlines text).1 = "1986 BARI roma 1986".toList →
          process_file vec 1986 (some text) ex0 = some (-1, vec)) :=
  parse_header_iff 1986 "1986 BARI roma 1986".toList "1986".toList
    ["BARI".toList, "roma".toList, "1986".toList] (by decide)

/-! ## Record phase: fatal tokens -/

/-- C16, as stated, fails when the first token is `END`: with the active
locations `[BARI]` the line `END 10 20 30 40 50 x y` has the 8 tokens of a record,
its first token is no day, and `process_file` stops reading and returns 0; the
well-formed line after it is not read. -/
theorem process_file_first_token_end :
    ¬ day_token_valid "END".toList ∧
      (tokenizer "END 10 20 30 40 50 x y".toList).length = 2 + 5 * 1 + 1 ∧
      process_file [] 2000
        (some "2000 BARI\nEND 10 20 30 40 50 x y\n01 GEN 10 20 30 40 50 x".toList)
        (fun _ => 0) = some (0, []) := by
  decide

/-- C16 (amended): for every active-location list of size `n` and every record
line of `2 + 5 * n + 1` tokens that follows well-formed lines, if the first
token is not `END` and the Field Parser does not read a value in 1..31 from it,
then `process_file` returns -1; the vector holds the draws of the earlier lines
only. -/
theorem process_file_invalid_day (y : Nat) (vec : List Nat) (text : List Char)
    (ex0 : Nat → Nat) (L : List ruota_t) (header record t : List Char)
    (before after rest : List (List Char))
    (hlines : getlines text = (header, before ++ record :: after))
    (hheader : parse_header y header = some L)
    (hwf : ∀ l ∈ before, record_well_formed L l)
    (htok : tokenizer record = t :: rest) (hlen : rest.length = 1 + 5 * L.length + 1)
    (hend : "END".toList ≠ c_str t) (hday : ¬ day_token_valid t) :
    process_file vec y (some text) ex0 =
      some (-1, vec ++
        (before.flatMap (fun l => line_draws y L (tokenizer l))).map (encode 0)) := by
  simp only [process_file, hlines, hheader]
  rw [records_loop_skip_well_formed y L ex0 (record :: after) before vec hwf]
  exact records_loop_error y L ex0 record after _ _
    (process_record_invalid_day y L ex0 _ record t rest htok hlen hend hday)

theorem process_file_invalid_day_witness :
    process_file [5] 2000
        (some "2000 BARI\n01 GEN 10 20 30 40 50 x\n32 GEN 10 20 30 40 50 x".toList)
        (fun _ => 0) =
      some (-1, [5] ++
        (["01 GEN 10 20 30 40 50 x".toList].flatMap
          (fun l => line_draws 2000 [ruota_t.BARI] (tokenizer l))).map (encode 0)) :=
  process_file_invalid_day 2000 [5]
    "2000 BARI\n01 GEN 10 20 30 40 50 x\n32 GEN 10 20 30 40 50 x".toList (fun _ => 0)
    [ruota_t.BARI] "2000 BARI".toList "32 GEN 10 20 30 40 50 x".toList "32".toList
    ["01 GEN 10 20 30 40 50 x".toList] []
    ["GEN".toList, "10".toList, "20".toList, "30".toList, "40".toList, "50".toList,
      "x".toList]
    (by decide) (by decide) (by decide) (by decide) (by decide) (by decide) (by decide)

/-- C17: for every active-location list of size `n` and every record line of
`2 + 5 * n + 1` tokens with a valid day that follows well-formed lines, if the
month token is not a month name, or the month is valid and one of the `5 * n`
number tokens is neither `--` nor read by the Field Parser as a value in 1..90,
then `process_file` returns -1: the line or the group is not skipped.  A token is
compared as the C string the code passes on. -/
theorem process_file_invalid_month_or_number (y : Nat) (vec : List Nat)
    (text : List Char) (ex0 : Nat → Nat) (L : List ruota_t)
    (header record day month : List Char) (before after rest : List (List Char))
    (hlines : getlines text = (header, before ++ record :: after))
    (hheader : parse_header y header = some L)
    (hwf : ∀ l ∈ before, record_well_formed L l)
    (htok : tokenizer record = day :: month :: rest)
    (hlen : rest.length = 5 * L.length + 1) (hday : day_token_valid day)
    (hbad : ¬ month_token_valid month ∨
      (month_token_valid month ∧ ∃ t ∈ rest.take (5 * L.length),
        "--".toList ≠ c_str t ∧ ¬ number_token_valid t)) :
    ∃ v, process_file vec y (some text) ex0 = some (-1, v) := by
  simp only [process_file, hlines, hheader]
  rw [records_loop_skip_well_formed y L ex0 (record :: after) before vec hwf]
  rcases hbad with hmonth | ⟨hmonth, hnum⟩
  · exact ⟨_, records_loop_error y L ex0 record after _ _
      (process_record_invalid_month y L ex0 _ record day month rest htok hlen hday hmonth)⟩
  · obtain ⟨v, hv⟩ := process_record_invalid_number y L ex0
      (vec ++ (before.flatMap (fun l => line_draws y L (tokenizer l))).map (encode 0))
      record day month rest htok hlen hday hmonth hnum
    exact ⟨v, records_loop_error y L ex0 record after _ v hv⟩

theorem process_file_invalid_month_or_number_witness :
    ∃ v, process_file [] 2000
      (some "2000 BARI ROMA\n01 GEN 10 20 30 40 50 01 02 91 04 05 x".toList)
      (fun _ => 0) = some (-1, v) :=
  process_file_invalid_month_or_number 2000 []
    "2000 BARI ROMA\n01 GEN 10 20 30 40 50 01 02 91 04 05 x".toList (fun _ => 0)
    [ruota_t.BARI, ruota_t.ROMA] "2000 BARI ROMA".toList
    "01 GEN 10 20 30 40 50 01 02 91 04 05 x".toList "01".toList "GEN".toList [] []
    ["10".toList, "20".toList, "30".toList, "40".toList, "50".toList, "01".toList,
      "02".toList, "91".toList, "04".toList, "05".toList, "x".toList]
    (by decide) (by decide) (by decide) (by decide) (by decide) (by decide)
    (Or.inr ⟨by decide, "91".toList, by decide, by decide, by decide⟩)

/-! ## Record phase: the trailing token -/

/-- C18, as stated, fails for an empty active-location list: after the header
`2000` a record line has 3 tokens and the last one is parsed as a number, so the
lines `01 GEN 05` and `01 GEN xx`, which differ in the last token only, give the
results 0 and -1. -/
theorem process_file_trailing_token_parsed :
    parse_header 2000 "2000".toList = some [] ∧
      process_file [] 2000 (some "2000\n01 GEN 05".toList) (fun _ => 0) = some (0, []) ∧
      process_file [] 2000 (some "2000\n01 GEN xx".toList) (fun _ => 0) =
        some (-1, []) := by
  decide

/-- C18 (amended): for every active-location list of size `n ≥ 1` and any two
record lines of `2 + 5 * n + 1` tokens that differ in the last token only,
`process_file` gives the same result code and the same vector on the two inputs:
the trailing token is counted and never read. -/
theorem process_file_trailing_token (y : Nat) (vec : List Nat) (ex0 : Nat → Nat)
    (text1 text2 header r1 r2 x1 x2 : List Char) (before after pre : List (List Char))
    (L : List ruota_t) (h1 : getlines text1 = (header, before ++ r1 :: after))
    (h2 : getlines text2 = (header, before ++ r2 :: after))
    (hheader : parse_header y header = some L) (hL : 1 ≤ L.length)
    (ht1 : tokenizer r1 = pre ++ [x1]) (ht2 : tokenizer r2 = pre ++ [x2])
    (hlen : pre.length = 2 + 5 * L.length) :
    process_file vec y (some text1) ex0 = process_file vec y (some text2) ex0 := by
  simp only [process_file, h1, h2, hheader]
  exact records_loop_congr y L ex0 r1 r2 after
    (fun v => process_record_trailing y L hL ex0 v r1 r2 x1 x2 pre ht1 ht2 hlen) before vec

theorem process_file_trailing_token_witness :
    process_file [] 2000 (some "2000 BARI\n01 GEN 10 20 30 40 50 05\nEND".toList)
        (fun _ => 0) =
      process_file [] 2000 (some "2000 BARI\n01 GEN 10 20 30 40 50 xx\nEND".toList)
        (fun _ => 0) :=
  process_file_trailing_token 2000 [] (fun _ => 0)
    "2000 BARI\n01 GEN 10 20 30 40 50 05\nEND".toList
    "2000 BARI\n01 GEN 10 20 30 40 50 xx\nEND".toList "2000 BARI".toList
    "01 GEN 10 20 30 40 50 05".toList "01 GEN 10 20 30 40 50 xx".toList "05".toList
    "xx".toList [] ["END".toList]
    ["01".toList, "GEN".toList, "10".toList, "20".toList, "30".toList, "40".toList,
      "50".toList]
    [ruota_t.BARI] (by decide) (by decide) (by decide) (by decide) (by decide) (by decide)
    (by decide)

/-! ## Field parser: tokens that are not decimal -/

/-- C20, as stated, fails: `convert_number_non_zero` returns 5 for `5x`, 5 for
`+5`, 5 for a tab followed by `5`, and 2^64 - 5 for `-5`. -/
theorem convert_number_non_zero_accepts :
    convert_number_non_zero "5x".toList = 5 ∧ convert_number_non_zero "+5".toList = 5 ∧
      convert_number_non_zero "\t5".toList = 5 ∧
      convert_number_non_zero "-5".toList = 2 ^ 64 - 5 := by
  decide

/-- C20 (amended): for a two-character token that contains a character other
than a decimal digit, `convert_number_non_zero` returns 0 exactly when the token
does not start with a digit 1..9 and is not a sign (`+`, `-`) or a white-space
character followed by a digit 1..9. -/
theorem convert_number_non_zero_non_decimal (c1 c2 : Char)
    (h : ¬ isdigit c1 = true ∨ ¬ isdigit c2 = true) :
    convert_number_non_zero [c1, c2] = 0 ↔
      ¬ (isdigit c1 = true ∧ c1 ≠ '0') ∧
        ¬ ((isspace c1 = true ∨ c1 = '+' ∨ c1 = '-') ∧ isdigit c2 = true ∧ c2 ≠ '0') := by
  have h0 : ('0' : Char).toNat = 48 := rfl
  have hm : ('-' : Char).toNat = 45 := rfl
  have hp : ('+' : Char).toNat = 43 := rfl
  have hz2 : c2 = '0' ↔ c2.toNat = 48 := by rw [char_eq_iff, h0]
  have hz1 : c1 = '0' ↔ c1.toNat = 48 := by rw [char_eq_iff, h0]
  have hm1 : c1 = '-' ↔ c1.toNat = 45 := by rw [char_eq_iff, hm]
  have hp1 : c1 = '+' ↔ c1.toNat = 43 := by rw [char_eq_iff, hp]
  rw [convert_number_non_zero_pair]
  by_cases hc0 : c1 = '0'
  · have hd1 : isdigit c1 = true := by rw [hc0]; decide
    have hd2 : ¬ isdigit c2 = true := by tauto
    have hsp : ¬ isspace c1 = true := by rw [hc0]; decide
    rw [if_pos hc0, strtoul_single, if_neg hd2, if_pos (Or.inl rfl)]
    refine iff_of_true rfl ⟨fun hh => hh.2 hc0, fun hh => ?_⟩
    rcases hh.1 with h3 | h3 | h3
    · exact hsp h3
    · rw [hc0] at h3; exact absurd h3 (by decide)
    · rw [hc0] at h3; exact absurd h3 (by decide)
  · rw [if_neg hc0]
    by_cases hsp : isspace c1 = true
    · have hd1 : ¬ isdigit c1 = true := by
        rw [isdigit_iff]; rw [isspace_iff] at hsp; omega
      rw [strtoul_space c1 [c2] hsp, strtoul_single]
      by_cases hd2 : isdigit c2 = true
      · have hr := (isdigit_iff c2).1 hd2
        rw [if_pos hd2]
        by_cases hv : c2.toNat = 48
        · rw [if_pos (Or.inr (by simp only; omega))]
          exact iff_of_true rfl ⟨fun hh => hd1 hh.1, fun hh => hh.2.2 (hz2.2 hv)⟩
        · rw [if_neg (by simp only [Bool.true_eq_false, false_or]; omega)]
          refine iff_of_false (by simp only; omega) (fun hh => ?_)
          exact hh.2 ⟨Or.inl hsp, hd2, fun h3 => hv (hz2.1 h3)⟩
      · rw [if_neg hd2, if_pos (Or.inl rfl)]
        exact iff_of_true rfl ⟨fun hh => hd1 hh.1, fun hh => hd2 hh.2.1⟩
    · by_cases hsg : c1 = '+' ∨ c1 = '-'
      · have hd1 : ¬ isdigit c1 = true := by
          rw [isdigit_iff]
          rcases hsg with h3 | h3
          · rw [hp1] at h3; omega
          · rw [hm1] at h3; omega
        rw [strtoul_sign c1 c2 hsg]
        by_cases hd2 : isdigit c2 = true
        · have hr := (isdigit_iff c2).1 hd2
          rw [if_pos hd2]
          by_cases hv : c2.toNat = 48
          · have hval : (if c1 = '-' then (2 ^ 64 - (c2.toNat - 48)) % 2 ^ 64
                else c2.toNat - 48) = 0 := by
              split <;> omega
            rw [if_pos (Or.inr (by simp only; exact hval.symm))]
            exact iff_of_true rfl ⟨fun hh => hd1 hh.1, fun hh => hh.2.2 (hz2.2 hv)⟩
          · have hval : (if c1 = '-' then (2 ^ 64 - (c2.toNat - 48)) % 2 ^ 64
                else c2.toNat - 48) ≠ 0 := by
              split <;> omega
            rw [if_neg (by simp only [Bool.true_eq_false, false_or]; exact fun h3 => hval h3.symm)]
            refine iff_of_false hval (fun hh => ?_)
            refine hh.2 ⟨Or.inr ?_, hd2, fun h3 => hv (hz2.1 h3)⟩
            exact hsg
        · rw [if_neg hd2, if_pos (Or.inl rfl)]
          exact iff_of_true rfl ⟨fun hh => hd1 hh.1, fun hh => hd2 hh.2.1⟩
      · by_cases hd1 : isdigit c1 = true
        · have hd2 : ¬ isdigit c2 = true := by tauto
          have hr := (isdigit_iff c1).1 hd1
          have hne : c1.toNat ≠ 48 := fun h3 => hc0 (hz1.2 h3)
          rw [strtoul_digit_stop c1 c2 hd1 hd2,
            if_neg (by simp only [Bool.true_eq_false, false_or]; omega)]
          exact iff_of_false (by simp only; omega) (fun hh => hh.1 ⟨hd1, hc0⟩)
        · rw [strtoul_no_number c1 c2 hsp hsg hd1, if_pos (Or.inl rfl)]
          refine iff_of_true rfl ⟨fun hh => hd1 hh.1, fun hh => ?_⟩
          rcases hh.1 with h3 | h3 | h3
          · exact hsp h3
          · exact hsg (Or.inl h3)
          · exact hsg (Or.inr h3)

theorem convert_number_non_zero_non_decimal_witness :
    convert_number_non_zero ['x', '5'] = 0 ↔
      ¬ (isdigit 'x' = true ∧ 'x' ≠ '0') ∧
        ¬ ((isspace 'x' = true ∨ 'x' = '+' ∨ 'x' = '-') ∧ isdigit '5' = true ∧ '5' ≠ '0') :=
  convert_number_non_zero_non_decimal 'x' '5' (Or.inl (by decide))

/-! ## The nine fields cover the record -/

/-- C21: for every 64-bit value `raw`, encoding the nine fields decoded from
`raw` gives `raw` back; and the record built by assigning the nine fields of an
uninitialised `extraction_t` does not depend on what the record held before, so
its raw value is determined by the fields. -/
theorem encode_decode (ex0 raw : Nat) (h : raw < 2 ^ 64) :
    encode ex0 (decode raw) = raw ∧
      ∀ (ex1 : Nat) (d : bits_t), encode ex0 d = encode ex1 d :=
  ⟨encode_decode_raw ex0 raw h, fun ex1 d => encode_independent ex0 ex1 d⟩

theorem encode_decode_witness :
    18446744073709551615 < 2 ^ 64 ∧
      encode 7 (decode 18446744073709551615) = 18446744073709551615 ∧
      ∀ (ex1 : Nat) (d : bits_t), encode 7 d = encode ex1 d :=
  ⟨by decide, encode_decode 7 18446744073709551615 (by decide)⟩

/-! ## The location lookup stays inside the list -/

/-- C22: for every active-location list, the empty one included, and every
record line that passes the token-count check, at every completion of a group of
five number tokens the position of the location iterator is below the size of
the list; the lookup of the location of a materialised draw never reads past the
end of the list, on this line and in the whole of `process_file`. -/
theorem group_index_in_range (y : Nat) (L : List ruota_t) (ex0 : Nat → Nat)
    (vec : List Nat) (record : List Char)
    (hsize : (tokenizer record).length = 2 + 5 * L.length + 1) :
    (∀ i ∈ completion_indices y L ex0 (tokenizer record) (record_init vec),
        i < L.length) ∧
      process_record y L ex0 vec record ≠ record_step.undefined ∧
      ∀ (infile : Option (List Char)), process_file vec y infile ex0 ≠ none :=
  ⟨completion_indices_lt y L ex0 vec (tokenizer record) (record_init vec)
      (by rw [hsize]; exact record_init_loop_inv L vec),
    process_record_defined y L ex0 vec record,
    fun infile => process_file_defined y vec infile ex0⟩

theorem group_index_in_range_witness :
    completion_indices 2000 [ruota_t.BARI, ruota_t.ROMA] (fun _ => 0)
        (tokenizer "01 GEN 10 20 30 40 50 -- 02 03 04 05 x".toList) (record_init []) =
        [0, 1] ∧
      completion_indices 2000 [] (fun _ => 0) (tokenizer "01 GEN 05".toList)
        (record_init []) = [] ∧
      ((∀ i ∈ completion_indices 2000 [ruota_t.BARI, ruota_t.ROMA] (fun _ => 0)
            (tokenizer "01 GEN 10 20 30 40 50 -- 02 03 04 05 x".toList) (record_init []),
          i < [ruota_t.BARI, ruota_t.ROMA].length) ∧
        process_record 2000 [ruota_t.BARI, ruota_t.ROMA] (fun _ => 0) []
          "01 GEN 10 20 30 40 50 -- 02 03 04 05 x".toList ≠ record_step.undefined ∧
        ∀ (infile : Option (List Char)),
          process_file [] 2000 infile (fun _ => 0) ≠ none) :=
  ⟨by decide, by decide,
    group_index_in_range 2000 [ruota_t.BARI, ruota_t.ROMA] (fun _ => 0) []
      "01 GEN 10 20 30 40 50 -- 02 03 04 05 x".toList (by decide)⟩

end LottoImporter
